import Mathlib

/-!
Optimizer statistics (pkg/sql/opt/props/statistics.go)

A shallow embedding of the row-count / distinct-count estimation algebra and of
the canonical ordering of column statistics.

Modelling conventions.

* float64 is modelled in exact arithmetic: every definition is generic in a
  linear ordered field `F` (computable at `ℚ`, the real numbers at `ℝ`).
  Rounding, infinities and NaN are outside this model.
* Where rounding decides a property, the two ApplySelectivity methods are
  given a second time in float64 arithmetic (`ApplySelectivity64`): values are
  rationals and every operation rounds its exact result with `round64`.
* math.Pow belongs to the Go standard library; it is a parameter `pow` of the
  one operation that calls it.
* Methods with a pointer receiver return the updated value.
* The unbounded `for` loop of `ColumnStatistics.Less` is modelled with a fuel
  argument counting loop iterations; `none` means that the loop has not
  returned within that many iterations.
* sort.Sort belongs to the Go standard library; it is modelled by the insertion
  sort it runs on short slices, and it returns nothing when a call of Less
  returns nothing. The float verb %.9g and ColSet.String are parameters of
  `Statistics.String`.
* Aliasing is modelled where it matters (copies): column statistics live in
  the cells of a memory and a Statistics object holds pointers to them.
-/

namespace props

/-! ## Data model -/

/-- Modelled from the spec: opt.ColSet (an alias of util.FastIntSet, declared
outside this file) is a finite set of column identifiers. Column identifiers
are non-negative integers. -/
abbrev ColSet := Finset ℕ

/-- Modelled from the spec: the value FastIntSet.Next returns next to
`ok = false` (intsets.MaxInt on a 64-bit platform). -/
def MaxInt : ℕ := 9223372036854775807

/-- Modelled from the spec: ColSet.Len, the number of column identifiers of the set. -/
def ColSet.Len (s : ColSet) : ℕ := s.card

/-- Modelled from the spec: ColSet.Next, the upstream FastIntSet operation
returning the smallest member that is `≥ startVal` together with `true`, or
`(MaxInt, false)` when there is no such member. -/
def ColSet.Next (s : ColSet) (startVal : ℕ) : ℕ × Bool :=
  if h : (s.filter (fun x => startVal ≤ x)).Nonempty then
    ((s.filter (fun x => startVal ≤ x)).min' h, true)
  else
    (MaxInt, false)

/-- Modelled from the spec: ColSet.Copy, a value copy of the set. -/
def ColSet.Copy (s : ColSet) : ColSet := s

/-- ColumnStatistic: a column set and its estimated distinct count. -/
structure ColumnStatistic (F : Type) where
  Cols : ColSet
  distinctCount : F

/-- Modelled from the spec: ColStatsMap (declared outside this file) is
consumed through a count and stable indexed access; it is a list of column
statistics in index order. -/
abbrev ColStatsMap (F : Type) := List (ColumnStatistic F)

/-- Statistics: row count, column statistics and selectivity. -/
structure Statistics (F : Type) where
  rowCount : F
  ColStats : ColStatsMap F
  selectivity : F

/-- ColumnStatistics: a slice of (pointers to) column statistics. -/
abbrev ColumnStatistics (F : Type) := List (ColumnStatistic F)

section Ops

variable {F : Type}

/-- Modelled from the spec: ColStatsMap.Count, the number of entries. -/
def ColStatsMap.Count (m : ColStatsMap F) : ℕ := m.length

/-- Modelled from the spec: ColStatsMap.Get(i) returns a pointer to the i-th
entry; `updateAt m i f` is the map after the entry behind that pointer has been
mutated by `f`. -/
def ColStatsMap.updateAt : ColStatsMap F → ℕ → (ColumnStatistic F → ColumnStatistic F) →
    ColStatsMap F
  | [], _, _ => []
  | c :: cs, 0, f => f c :: cs
  | c :: cs, i + 1, f => c :: ColStatsMap.updateAt cs i f

/-- The loop `for i, n := 0, N; i < n; i++ { body }` as a state transformer:
`body 0` runs first and `body (N-1)` last. -/
def forLoop {σ : Type} (body : ℕ → σ → σ) : ℕ → σ → σ
  | 0, st => st
  | n + 1, st => body n (forLoop body n st)

/-- Getter Statistics.RowCount. -/
def Statistics.RowCount (s : Statistics F) : F := s.rowCount

/-- Setter Statistics.UpdateRowCount. -/
def Statistics.UpdateRowCount (s : Statistics F) (rowCount : F) : Statistics F :=
  { s with rowCount := rowCount }

/-- Getter Statistics.Selectivity. -/
def Statistics.Selectivity (s : Statistics F) : F := s.selectivity

/-- Setter Statistics.UpdateSelectivity. -/
def Statistics.UpdateSelectivity (s : Statistics F) (selectivity : F) : Statistics F :=
  { s with selectivity := selectivity }

/-- Setter ColumnStatistic.UpdateDistinctCount. -/
def ColumnStatistic.UpdateDistinctCount (c : ColumnStatistic F) (distinctCount : F) :
    ColumnStatistic F :=
  { c with distinctCount := distinctCount }

/-- Getter ColumnStatistic.DistinctCount. -/
def ColumnStatistic.DistinctCount (c : ColumnStatistic F) : F := c.distinctCount

/-- Statistics.ApplySelectivity: with selectivity 0 the row count and every
distinct count are set to 0 and the method returns; otherwise the row count and
the selectivity field are multiplied by the argument and every distinct count
larger than the new row count is lowered to it. -/
def Statistics.ApplySelectivity [LinearOrderedField F] (s : Statistics F) (selectivity : F) :
    Statistics F :=
  if selectivity = 0 then
    let s1 := s.UpdateRowCount 0
    forLoop
      (fun i st =>
        { st with ColStats := st.ColStats.updateAt i (fun c => c.UpdateDistinctCount 0) })
      s1.ColStats.Count s1
  else
    let s1 := s.UpdateRowCount (s.RowCount * selectivity)
    let s2 := s1.UpdateSelectivity (s1.Selectivity * selectivity)
    forLoop
      (fun i st =>
        { st with ColStats := st.ColStats.updateAt i (fun colStat =>
            if colStat.DistinctCount > st.RowCount then
              colStat.UpdateDistinctCount st.RowCount
            else colStat) })
      s2.ColStats.Count s2

/-- ColumnStatistic.ApplySelectivity: no change when the selectivity is 1 or the
distinct count is 0; distinct count 0 when the selectivity is 0; otherwise
`d - d * pow (1 - selectivity) (n / d)` with `n` the input row count. -/
def ColumnStatistic.ApplySelectivity [LinearOrderedField F] (pow : F → F → F)
    (c : ColumnStatistic F) (selectivity inputRows : F) : ColumnStatistic F :=
  if selectivity = 1 ∨ c.DistinctCount = 0 then c
  else if selectivity = 0 then c.UpdateDistinctCount 0
  else
    let n := inputRows
    let d := c.DistinctCount
    c.UpdateDistinctCount (d - d * pow (1 - selectivity) (n / d))

/-- The tie-break loop of ColumnStatistics.Less on the two column sets, started
at `prev`; `fuel` bounds the number of iterations. -/
def ColumnStatistics.Less.loop (colsI colsJ : ColSet) : ℕ → ℕ → Option Bool
  | 0, _ => none
  | fuel + 1, prev =>
    if (colsI.Next prev).2 = false then some false
    else if (colsI.Next prev).1 ≠ (colsJ.Next prev).1 then
      some (decide ((colsI.Next prev).1 < (colsJ.Next prev).1))
    else ColumnStatistics.Less.loop colsI colsJ fuel (colsI.Next prev).1

/-- ColumnStatistics.Less(i, j): compares the cardinalities of the two column
sets and, when they agree, runs the tie-break loop from `prev = 0`. -/
def ColumnStatistics.Less (fuel : ℕ) (c : ColumnStatistics F) (i j : Fin c.length) :
    Option Bool :=
  if (c.get i).Cols.Len ≠ (c.get j).Cols.Len then
    some (decide ((c.get i).Cols.Len < (c.get j).Cols.Len))
  else
    ColumnStatistics.Less.loop (c.get i).Cols (c.get j).Cols fuel 0

/-- The scenario of the specification: row count 1000, selectivity 1 and one
statistic on column 1 with distinct count 100. -/
def scenarioStats : Statistics ℚ :=
  { rowCount := 1000, ColStats := [{ Cols := {1}, distinctCount := 100 }], selectivity := 1 }

/-- A state in which a distinct count (100) exceeds the row count (10). -/
def unclampedStats : Statistics ℚ :=
  { rowCount := 10, ColStats := [{ Cols := {1}, distinctCount := 100 }], selectivity := 1 }

/-- Column statistics on the column sets {1,2}, {1,3}, {2,3}, {1,2}, {1} and
{2,5}, at the indices 0 to 5. -/
def pairStats : ColumnStatistics ℚ :=
  [{ Cols := {1, 2}, distinctCount := 10 }, { Cols := {1, 3}, distinctCount := 20 },
   { Cols := {2, 3}, distinctCount := 30 }, { Cols := {1, 2}, distinctCount := 40 },
   { Cols := {1}, distinctCount := 5 }, { Cols := {2, 5}, distinctCount := 50 }]

/-- The tie-break as the specification words it: on the two ascending lists of
column identifiers the first position at which they differ decides, the smaller
identifier sorting first; lists without such a position are not ordered. -/
def firstDifferenceLess : List ℕ → List ℕ → Bool
  | x :: xs, y :: ys => if x = y then firstDifferenceLess xs ys else decide (x < y)
  | _, _ => false

/-- The canonical order as the specification words it (not the code): smaller
cardinality first, and on equal cardinality the first difference of the
ascending identifier lists decides. -/
def ColumnStatistics.LessSpec (a b : ColSet) : Bool :=
  decide (a.card < b.card) ||
    (decide (a.card = b.card) && firstDifferenceLess (a.sort (· ≤ ·)) (b.sort (· ≤ ·)))

/-- Modelled from the spec: props.Relational (declared outside this file), of
which Statistics.Init reads the cardinality bound only; the type `Card` of the
bound is a parameter. -/
structure Relational (Card : Type) where
  Cardinality : Card

/-- Statistics.Init: when the cardinality bound is zero, row count and
selectivity are set to 0 and the result is `true`; otherwise the selectivity is
set to 1 and the result is `false`. The predicate `IsZero` of the cardinality
bound (declared outside this file) is a parameter. -/
def Statistics.Init [LinearOrderedField F] {Card : Type} (IsZero : Card → Bool)
    (s : Statistics F) (relProps : Relational Card) : Statistics F × Bool :=
  if IsZero relProps.Cardinality then
    let s1 := s.UpdateRowCount 0
    let s2 := s1.UpdateSelectivity 0
    (s2, true)
  else
    (s.UpdateSelectivity 1, false)

/-- The quotient `n / d` as a partial operation, undefined for the divisor 0. -/
def checkedDiv [LinearOrderedField F] (n d : F) : Option F :=
  if d = 0 then none else some (n / d)

/-- ColumnStatistic.ApplySelectivity with the quotient `n / d` evaluated by
`checkedDiv`: the result is `none` when the division is reached with divisor 0. -/
def ColumnStatistic.ApplySelectivityChecked [LinearOrderedField F] (pow : F → F → F)
    (c : ColumnStatistic F) (selectivity inputRows : F) : Option (ColumnStatistic F) :=
  if selectivity = 1 ∨ c.DistinctCount = 0 then some c
  else if selectivity = 0 then some (c.UpdateDistinctCount 0)
  else
    let n := inputRows
    let d := c.DistinctCount
    match checkedDiv n d with
    | none => none
    | some q => some (c.UpdateDistinctCount (d - d * pow (1 - selectivity) q))

/-- ColumnStatistic.Copy: a new statistic holding a copy of the column set and
the same distinct count. -/
def ColumnStatistic.Copy (c : ColumnStatistic F) : ColumnStatistic F :=
  { Cols := c.Cols.Copy, distinctCount := c.distinctCount }

/-- Memory of column-statistic cells: the pointer that ColStatsMap.Get returns
is the index of a cell. -/
abbrev Memory (F : Type) := List (ColumnStatistic F)

/-- A Statistics object laid out in a memory: the two scalar fields by value
and the column statistics as the pointers to their cells, in index order. -/
structure StatisticsObj (F : Type) where
  rowCount : F
  ColStats : List ℕ
  selectivity : F

/-- The Statistics value that an object denotes in a memory. -/
def StatisticsObj.value (mem : Memory F) (o : StatisticsObj F) : Statistics F :=
  { rowCount := o.rowCount,
    ColStats := o.ColStats.filterMap (fun a => mem[a]?),
    selectivity := o.selectivity }

/-- Modelled from the spec: ColStatsMap.Copy (declared outside this file) is a
deep copy: every entry is copied with ColumnStatistic.Copy into a fresh cell at
the end of the memory, and the copied map points to the fresh cells. -/
def ColStatsMap.CopyCells (mem : Memory F) (ptrs : List ℕ) : Memory F × List ℕ :=
  (mem ++ (ptrs.filterMap (fun a => mem[a]?)).map ColumnStatistic.Copy,
   (List.range ((ptrs.filterMap (fun a => mem[a]?)).map ColumnStatistic.Copy).length).map
     (fun k => mem.length + k))

/-- Statistics.Copy on objects: a new object with the same row count, the copy
of the column statistics and the same selectivity. -/
def StatisticsObj.Copy (mem : Memory F) (s : StatisticsObj F) : Memory F × StatisticsObj F :=
  ((ColStatsMap.CopyCells mem s.ColStats).1,
   { rowCount := s.rowCount,
     ColStats := (ColStatsMap.CopyCells mem s.ColStats).2,
     selectivity := s.selectivity })

/-- Statistics.Copy on values. -/
def Statistics.Copy (s : Statistics F) : Statistics F :=
  { rowCount := s.rowCount,
    ColStats := s.ColStats.map ColumnStatistic.Copy,
    selectivity := s.selectivity }

/-- Writing through pointers: the cell behind the i-th pointer receives the
i-th value. -/
def Memory.storeAll (mem : Memory F) : List ℕ → List (ColumnStatistic F) → Memory F
  | a :: ptrs, v :: vals => Memory.storeAll (mem.set a v) ptrs vals
  | _, _ => mem

/-- A mutation of an object by a mutating method, given as its effect `op` on
values (UpdateRowCount, UpdateSelectivity, Statistics.ApplySelectivity, or an
update of one column statistic): the scalar fields are stored in the object and
the column statistics are written through the pointers of the object. -/
def StatisticsObj.mutate (op : Statistics F → Statistics F) (mem : Memory F)
    (o : StatisticsObj F) : Memory F × StatisticsObj F :=
  (mem.storeAll o.ColStats (op (o.value mem)).ColStats,
   { rowCount := (op (o.value mem)).rowCount,
     ColStats := o.ColStats,
     selectivity := (op (o.value mem)).selectivity })

/-- A memory holding the column statistic of the scenario in its cell 0. -/
def scenarioMemory : Memory ℚ := [{ Cols := {1}, distinctCount := 100 }]

/-- The scenario of the specification as an object over `scenarioMemory`. -/
def scenarioObj : StatisticsObj ℚ := { rowCount := 1000, ColStats := [0], selectivity := 1 }

/-- ColumnStatistics.Swap: exchanges the entries at the two indices. -/
def ColumnStatistics.Swap (c : ColumnStatistics F) (i j : Fin c.length) : ColumnStatistics F :=
  (c.set i (c.get j)).set j (c.get i)

/-- The inner loop of the insertion sort of the Go standard library,
`for j := i; j > 0 && data.Less(j, j-1); j-- { data.Swap(j, j-1) }`, started at
`j`; the result is `none` when a call of Less does not return. -/
def insertionSort.inner (fuel : ℕ) : ℕ → ColumnStatistics F → Option (ColumnStatistics F)
  | 0, c => some c
  | j + 1, c =>
    if h : j + 1 < c.length then
      match ColumnStatistics.Less fuel c ⟨j + 1, h⟩ ⟨j, Nat.lt_of_succ_lt h⟩ with
      | none => none
      | some false => some c
      | some true =>
        insertionSort.inner fuel j (c.Swap ⟨j + 1, h⟩ ⟨j, Nat.lt_of_succ_lt h⟩)
    else some c

/-- The call sort.Sort(colStats) of the Go standard library, as its insertion
sort `for i := 1; i < n; i++ { inner loop from i }`, the algorithm sort.Sort
runs on a short slice (fewer than 7 entries); every call of Less is given the
same fuel. -/
def sortSort (fuel : ℕ) (c : ColumnStatistics F) : Option (ColumnStatistics F) :=
  forLoop (fun k acc => Option.bind acc (insertionSort.inner fuel (k + 1))) (c.length - 1)
    (some c)

/-- Statistics.String: the row count, then one entry per column statistic in
the order produced by sorting, then the closing bracket. The formatting of a
float with the verb %.9g (`fmtG`) and ColSet.String (`colsString`), both
declared outside this file, are parameters; the result is `none` when the sort
does not return. -/
def Statistics.String (fmtG : F → String) (colsString : ColSet → String) (fuel : ℕ)
    (s : Statistics F) : Option String :=
  let buf := "[rows=" ++ fmtG s.RowCount
  let colStats : ColumnStatistics F :=
    List.ofFn (fun i : Fin s.ColStats.Count => s.ColStats.get i)
  match sortSort fuel colStats with
  | none => none
  | some sorted =>
    let buf2 := sorted.foldl
      (fun b col => b ++ ", distinct" ++ colsString col.Cols ++ "=" ++ fmtG col.DistinctCount)
      buf
    some (buf2 ++ "]")

/-- The rendering scenario of the specification: row count 42 with the
statistics {2}:5 and {1}:3, held in this order. -/
def renderScenario : Statistics ℚ :=
  { rowCount := 42,
    ColStats := [{ Cols := {2}, distinctCount := 5 }, { Cols := {1}, distinctCount := 3 }],
    selectivity := 1 }

/-- Statistics on the two different column sets {1,2} and {1,3}. -/
def sharedFirstStats : Statistics ℚ :=
  { rowCount := 42,
    ColStats := [{ Cols := {1, 2}, distinctCount := 5 }, { Cols := {1, 3}, distinctCount := 3 }],
    selectivity := 1 }

/-- The statistics of `sharedFirstStats` held in the other order. -/
def sharedFirstSwapped : Statistics ℚ :=
  { rowCount := 42,
    ColStats := [{ Cols := {1, 3}, distinctCount := 3 }, { Cols := {1, 2}, distinctCount := 5 }],
    selectivity := 1 }

/-- Statistics on the three different column sets {3}, {1,2} and {1,3}. -/
def tripleStats : Statistics ℚ :=
  { rowCount := 7,
    ColStats := [{ Cols := {3}, distinctCount := 1 }, { Cols := {1, 2}, distinctCount := 5 },
      { Cols := {1, 3}, distinctCount := 3 }],
    selectivity := 1 }

/-- Rounding of a rational number to an integer: to the nearest integer, a tie
going to the even one. -/
def roundHalfEven (x : ℚ) : ℤ :=
  if x - Int.floor x < 1 / 2 then Int.floor x
  else if 1 / 2 < x - Int.floor x then Int.floor x + 1
  else if Int.floor x % 2 = 0 then Int.floor x else Int.floor x + 1

/-- The float64 rounding of an exact result, as IEEE 754 binary64 arithmetic
(the arithmetic of Go's float64) performs it: the nearest number with 53
significant bits, a tie going to the even significand. The exponent range is
not bounded here, so the model is that of float64 on results in its normal
range; infinities and NaN are not represented. -/
def round64 (q : ℚ) : ℚ :=
  if q = 0 then 0
  else (roundHalfEven (q / 2 ^ (Int.log 2 |q| - 52)) : ℚ) * 2 ^ (Int.log 2 |q| - 52)

/-- The float64 product `a * b`. -/
def mul64 (a b : ℚ) : ℚ := round64 (a * b)

/-- The float64 difference `a - b`. -/
def sub64 (a b : ℚ) : ℚ := round64 (a - b)

/-- The float64 quotient `a / b`. -/
def div64 (a b : ℚ) : ℚ := round64 (a / b)

/-- Statistics.ApplySelectivity in float64 arithmetic: the same statements as
`Statistics.ApplySelectivity`, every product rounded as float64 rounds it. -/
def Statistics.ApplySelectivity64 (s : Statistics ℚ) (selectivity : ℚ) : Statistics ℚ :=
  if selectivity = 0 then
    let s1 := s.UpdateRowCount 0
    forLoop
      (fun i st =>
        { st with ColStats := st.ColStats.updateAt i (fun c => c.UpdateDistinctCount 0) })
      s1.ColStats.Count s1
  else
    let s1 := s.UpdateRowCount (mul64 s.RowCount selectivity)
    let s2 := s1.UpdateSelectivity (mul64 s1.Selectivity selectivity)
    forLoop
      (fun i st =>
        { st with ColStats := st.ColStats.updateAt i (fun colStat =>
            if colStat.DistinctCount > st.RowCount then
              colStat.UpdateDistinctCount st.RowCount
            else colStat) })
      s2.ColStats.Count s2

/-- ColumnStatistic.ApplySelectivity in float64 arithmetic: the same statements
as `ColumnStatistic.ApplySelectivity`, every difference, quotient and product
rounded as float64 rounds it; `pow` stands for math.Pow on float64 values. -/
def ColumnStatistic.ApplySelectivity64 (pow : ℚ → ℚ → ℚ) (c : ColumnStatistic ℚ)
    (selectivity inputRows : ℚ) : ColumnStatistic ℚ :=
  if selectivity = 1 ∨ c.DistinctCount = 0 then c
  else if selectivity = 0 then c.UpdateDistinctCount 0
  else
    let n := inputRows
    let d := c.DistinctCount
    c.UpdateDistinctCount (sub64 d (mul64 d (pow (sub64 1 selectivity) (div64 n d))))

/-- The float64 value of the literal 0.1. -/
def tenth64 : ℚ := 3602879701896397 / 36028797018963968

/-- The float64 value of the literal 0.7. -/
def sevenTenths64 : ℚ := 3152519739159347 / 4503599627370496

/-- The float64 value of the literal 0.215. -/
def lit215 : ℚ := 7746191359077253 / 36028797018963968

/-- A state with row count 3, selectivity 1 and one statistic on column 1 with
distinct count 1. -/
def smallStats : Statistics ℚ :=
  { rowCount := 3, ColStats := [{ Cols := {1}, distinctCount := 1 }], selectivity := 1 }

end Ops

/-! ## Auxiliary lemmas -/

section Aux

variable {F : Type}

lemma updateAt_map_take (f : ColumnStatistic F → ColumnStatistic F) :
    ∀ (l : ColStatsMap F) (n : ℕ), n < l.length →
      ColStatsMap.updateAt ((l.take n).map f ++ l.drop n) n f
        = (l.take (n + 1)).map f ++ l.drop (n + 1)
  | [], n, h => by simp at h
  | c :: cs, 0, _ => by simp [ColStatsMap.updateAt]
  | c :: cs, n + 1, h => by
    have ih := updateAt_map_take f cs n (by simpa using h)
    simp only [List.take_succ_cons, List.map_cons, List.cons_append, List.drop_succ_cons,
      ColStatsMap.updateAt]
    exact congrArg (List.cons (f c)) ih

/-- Running the indexed loop over a prefix of the map applies the per-entry
update to exactly that prefix; the row count and selectivity are not touched. -/
lemma forLoop_updateAt (g : F → ColumnStatistic F → ColumnStatistic F) (s : Statistics F) :
    ∀ n, n ≤ s.ColStats.length →
      forLoop (fun i (st : Statistics F) =>
          { st with ColStats := st.ColStats.updateAt i (g st.rowCount) }) n s
        = { s with ColStats := (s.ColStats.take n).map (g s.rowCount) ++ s.ColStats.drop n }
  | 0, _ => by simp [forLoop]
  | n + 1, h => by
    have ih := forLoop_updateAt g s n (Nat.le_of_succ_le h)
    simp only [forLoop]
    rw [ih]
    simp only
    rw [updateAt_map_take (g s.rowCount) s.ColStats n h]

/-- The whole loop is a map over the column statistics. -/
lemma forLoop_updateAt_all (g : F → ColumnStatistic F → ColumnStatistic F) (s : Statistics F) :
    forLoop (fun i (st : Statistics F) =>
        { st with ColStats := st.ColStats.updateAt i (g st.rowCount) }) s.ColStats.length s
      = { s with ColStats := s.ColStats.map (g s.rowCount) } := by
  rw [forLoop_updateAt g s _ le_rfl]
  simp

end Aux

/-! ## Statistics.ApplySelectivity -/

section StatisticsApply

variable {F : Type} [LinearOrderedField F]

/-- The zero branch in closed form. -/
lemma applySelectivity_zero_eq (st : Statistics F) :
    st.ApplySelectivity 0
      = { rowCount := 0,
          ColStats := st.ColStats.map (fun c => { c with distinctCount := 0 }),
          selectivity := st.selectivity } := by
  have h := forLoop_updateAt_all (fun _ c => ({ c with distinctCount := 0 } : ColumnStatistic F))
    ({ st with rowCount := 0 } : Statistics F)
  simp only [Statistics.ApplySelectivity, if_true, Statistics.UpdateRowCount,
    ColStatsMap.Count, ColumnStatistic.UpdateDistinctCount]
  exact h

/-- The general branch in closed form. -/
lemma applySelectivity_ne_zero_eq (st : Statistics F) (s : F) (hs : s ≠ 0) :
    st.ApplySelectivity s
      = { rowCount := st.rowCount * s,
          ColStats := st.ColStats.map
            (fun c => { c with distinctCount := min c.distinctCount (st.rowCount * s) }),
          selectivity := st.selectivity * s } := by
  have h := forLoop_updateAt_all
    (fun r c => if c.distinctCount > r then ({ c with distinctCount := r } : ColumnStatistic F)
      else c)
    ({ rowCount := st.rowCount * s, ColStats := st.ColStats,
       selectivity := st.selectivity * s } : Statistics F)
  simp only [Statistics.ApplySelectivity, if_neg hs, Statistics.UpdateRowCount,
    Statistics.UpdateSelectivity, Statistics.RowCount, Statistics.Selectivity,
    ColStatsMap.Count, ColumnStatistic.UpdateDistinctCount, ColumnStatistic.DistinctCount]
  refine h.trans ?_
  congr 1
  apply List.map_congr_left
  intro c _
  by_cases hc : c.distinctCount > st.rowCount * s
  · simp only [if_pos hc, min_eq_right (le_of_lt hc)]
  · simp only [if_neg hc, min_eq_left (not_lt.mp hc)]

/-- A map fixes a list exactly when it fixes each of its entries. -/
lemma map_eq_self_iff_forall {α : Type} (f : α → α) :
    ∀ l : List α, l.map f = l ↔ ∀ a ∈ l, f a = a
  | [] => by simp
  | a :: l => by
    have ih := map_eq_self_iff_forall f l
    simp [ih]

/-- C1: for every argument `s ≠ 0`, Statistics.ApplySelectivity yields row
count `r * s`, selectivity field `q * s`, and every column statistic keeps its
column set while its distinct count becomes `min d (r * s)`; the number of
column statistics is unchanged. -/
theorem Statistics.ApplySelectivity_nonzero (st : Statistics F) (s : F) (hs : s ≠ 0) :
    (st.ApplySelectivity s).rowCount = st.rowCount * s ∧
    (st.ApplySelectivity s).selectivity = st.selectivity * s ∧
    (st.ApplySelectivity s).ColStats.length = st.ColStats.length ∧
    (st.ApplySelectivity s).ColStats.map (fun c => c.Cols) = st.ColStats.map (fun c => c.Cols) ∧
    (st.ApplySelectivity s).ColStats.map (fun c => c.distinctCount)
      = st.ColStats.map (fun c => min c.distinctCount (st.rowCount * s)) := by
  rw [applySelectivity_ne_zero_eq st s hs]
  refine ⟨rfl, rfl, ?_, ?_, ?_⟩
  · simp
  · simp [Function.comp_def]
  · simp [Function.comp_def]

/-- C1, the scenario of the specification: row count 1000, selectivity 1, one
statistic on column 1 with distinct count 100, argument 1/2. -/
theorem Statistics.ApplySelectivity_nonzero_witness :
    ((1 : ℚ) / 2 ≠ 0) ∧
    (Statistics.ApplySelectivity
        scenarioStats (1 / 2)).rowCount = 500 ∧
    (Statistics.ApplySelectivity
        scenarioStats (1 / 2)).selectivity = 1 / 2 ∧
    (Statistics.ApplySelectivity
        scenarioStats (1 / 2)).ColStats.map (fun c => c.Cols) = [{1}] ∧
    (Statistics.ApplySelectivity
        scenarioStats (1 / 2)).ColStats.map (fun c => c.distinctCount)
      = [100] := by
  obtain ⟨h1, h2, _, h4, h5⟩ := Statistics.ApplySelectivity_nonzero
    scenarioStats (1 / 2) (by norm_num)
  refine ⟨by norm_num, ?_, ?_, ?_, ?_⟩
  · rw [h1]; norm_num [scenarioStats]
  · rw [h2]; norm_num [scenarioStats]
  · rw [h4]; rfl
  · rw [h5]; norm_num [scenarioStats]

/-- C2: Statistics.ApplySelectivity with argument 0 yields row count 0 and
distinct count 0 on every column statistic, whatever the prior state; the
selectivity field keeps its prior value and the column sets are unchanged. -/
theorem Statistics.ApplySelectivity_zero (st : Statistics F) :
    (st.ApplySelectivity 0).rowCount = 0 ∧
    (∀ c ∈ (st.ApplySelectivity 0).ColStats, c.distinctCount = 0) ∧
    (st.ApplySelectivity 0).selectivity = st.selectivity ∧
    (st.ApplySelectivity 0).ColStats.length = st.ColStats.length ∧
    (st.ApplySelectivity 0).ColStats.map (fun c => c.Cols) = st.ColStats.map (fun c => c.Cols) := by
  rw [applySelectivity_zero_eq st]
  refine ⟨rfl, ?_, rfl, ?_, ?_⟩
  · intro c hc
    simp only [List.mem_map] at hc
    obtain ⟨a, _, rfl⟩ := hc
    rfl
  · simp
  · simp [Function.comp_def]

/-- C3: after Statistics.ApplySelectivity with an argument in (0, 1], every
column statistic has a distinct count at most the new row count, whatever the
distinct counts were before. -/
theorem Statistics.ApplySelectivity_clamp (st : Statistics F) (s : F) (hpos : 0 < s)
    (_hle : s ≤ 1) :
    ∀ c ∈ (st.ApplySelectivity s).ColStats,
      c.distinctCount ≤ (st.ApplySelectivity s).rowCount := by
  rw [applySelectivity_ne_zero_eq st s (ne_of_gt hpos)]
  intro c hc
  simp only [List.mem_map] at hc
  obtain ⟨a, _, rfl⟩ := hc
  exact min_le_right _ _

/-- C3 at row count 10, one statistic with distinct count 100, argument 1/2:
the distinct count after the call is at most the new row count. -/
theorem Statistics.ApplySelectivity_clamp_witness :
    ((0 : ℚ) < 1 / 2) ∧ ((1 : ℚ) / 2 ≤ 1) ∧
    ∀ c ∈ (Statistics.ApplySelectivity
        unclampedStats (1 / 2)).ColStats,
      c.distinctCount ≤ (Statistics.ApplySelectivity
        unclampedStats (1 / 2)).rowCount :=
  ⟨by norm_num, by norm_num,
    Statistics.ApplySelectivity_clamp _ (1 / 2) (by norm_num) (by norm_num)⟩

/-- C4 fails as stated: with row count 10 and a statistic whose distinct count
is 100, Statistics.ApplySelectivity with argument 1 lowers the distinct count
to 10. -/
theorem Statistics.clamp_lowers_distinctCount_at_one :
    (Statistics.ApplySelectivity
        unclampedStats 1).ColStats.map (fun c => c.distinctCount) = [10] ∧
    (Statistics.ApplySelectivity
        unclampedStats 1).ColStats.map (fun c => c.distinctCount)
      ≠ unclampedStats.ColStats.map (fun c => c.distinctCount) := by
  rw [applySelectivity_ne_zero_eq _ 1 one_ne_zero]
  constructor
  · norm_num [unclampedStats]
  · norm_num [unclampedStats]

/-- C4 as amended: Statistics.ApplySelectivity with argument 1 leaves the row
count, the selectivity field and the column sets unchanged and replaces every
distinct count `d` by `min d rowCount`; the column statistics are all unchanged
exactly when every distinct count was at most the row count before the call. -/
theorem Statistics.ApplySelectivity_one (st : Statistics F) :
    (st.ApplySelectivity 1).rowCount = st.rowCount ∧
    (st.ApplySelectivity 1).selectivity = st.selectivity ∧
    (st.ApplySelectivity 1).ColStats
      = st.ColStats.map (fun c => { c with distinctCount := min c.distinctCount st.rowCount }) ∧
    ((st.ApplySelectivity 1).ColStats = st.ColStats
      ↔ ∀ c ∈ st.ColStats, c.distinctCount ≤ st.rowCount) := by
  rw [applySelectivity_ne_zero_eq st 1 one_ne_zero]
  simp only [mul_one]
  refine ⟨trivial, trivial, trivial, ?_⟩
  rw [map_eq_self_iff_forall]
  constructor
  · intro h c hc
    have h1 := congrArg ColumnStatistic.distinctCount (h c hc)
    exact min_eq_left_iff.mp h1
  · intro h c hc
    have h1 : min c.distinctCount st.rowCount = c.distinctCount := min_eq_left (h c hc)
    cases c
    simp only at h1
    simp [h1]

/-- C4 as amended, at row count 1000 and one statistic with distinct count 100
(at most the row count): nothing changes. -/
theorem Statistics.ApplySelectivity_one_witness :
    (∀ c ∈ scenarioStats.ColStats, c.distinctCount ≤ scenarioStats.rowCount) ∧
    (Statistics.ApplySelectivity
        scenarioStats 1).ColStats
      = [{ Cols := {1}, distinctCount := 100 }] := by
  have hle : ∀ c ∈ scenarioStats.ColStats, c.distinctCount ≤ scenarioStats.rowCount := by
    intro c hc
    simp only [scenarioStats, List.mem_singleton] at hc
    subst hc
    norm_num [scenarioStats]
  exact ⟨hle, (Statistics.ApplySelectivity_one _).2.2.2.mpr hle⟩

/-- C5 fails as stated: from selectivity field 1, the calls with arguments 0 and
then 1/2 leave the selectivity field at 1/2, while the single call with
argument `0 * (1/2)` leaves it at 1. -/
theorem Statistics.selectivity_field_differs_after_zero :
    ((scenarioStats.ApplySelectivity 0).ApplySelectivity (1 / 2)).selectivity = 1 / 2 ∧
    (scenarioStats.ApplySelectivity (0 * (1 / 2))).selectivity = 1 ∧
    ((scenarioStats.ApplySelectivity 0).ApplySelectivity (1 / 2)).selectivity
      ≠ (scenarioStats.ApplySelectivity (0 * (1 / 2))).selectivity := by
  have hne : ((1 : ℚ) / 2) ≠ 0 := by norm_num
  rw [zero_mul, applySelectivity_ne_zero_eq _ (1 / 2) hne, applySelectivity_zero_eq]
  norm_num [scenarioStats]

/-- C5 as amended: for all `s1`, `s2` in [0, 1], applying `s1` and then `s2`
yields the same row count as the single application of `s1 * s2`; the
selectivity fields agree as well when `s1` and `s2` are both nonzero or both
zero. -/
theorem Statistics.ApplySelectivity_compose (st : Statistics F) (s1 s2 : F)
    (_h1 : 0 ≤ s1 ∧ s1 ≤ 1) (_h2 : 0 ≤ s2 ∧ s2 ≤ 1) :
    ((st.ApplySelectivity s1).ApplySelectivity s2).rowCount
      = (st.ApplySelectivity (s1 * s2)).rowCount ∧
    ((s1 = 0 ↔ s2 = 0) →
      ((st.ApplySelectivity s1).ApplySelectivity s2).selectivity
        = (st.ApplySelectivity (s1 * s2)).selectivity) := by
  by_cases hs1 : s1 = 0
  · subst hs1
    by_cases hs2 : s2 = 0
    · subst hs2
      simp only [zero_mul, applySelectivity_zero_eq]
      exact ⟨trivial, fun _ => trivial⟩
    · rw [zero_mul, applySelectivity_ne_zero_eq _ s2 hs2, applySelectivity_zero_eq]
      refine ⟨by simp, fun h => absurd (h.mp rfl) hs2⟩
  · by_cases hs2 : s2 = 0
    · subst hs2
      rw [mul_zero, applySelectivity_zero_eq, applySelectivity_zero_eq]
      exact ⟨rfl, fun h => absurd (h.mpr rfl) hs1⟩
    · rw [applySelectivity_ne_zero_eq _ s2 hs2, applySelectivity_ne_zero_eq _ s1 hs1,
        applySelectivity_ne_zero_eq _ (s1 * s2) (mul_ne_zero hs1 hs2)]
      exact ⟨by simp only [mul_assoc], fun _ => by simp only [mul_assoc]⟩

/-- C5 as amended, at the scenario state with `s1 = 1/2` and `s2 = 1/4`: row
count 125 and selectivity field 1/8 either way. -/
theorem Statistics.ApplySelectivity_compose_witness :
    ((0 : ℚ) ≤ 1 / 2 ∧ (1 : ℚ) / 2 ≤ 1) ∧ ((0 : ℚ) ≤ 1 / 4 ∧ (1 : ℚ) / 4 ≤ 1) ∧
    ((1 : ℚ) / 2 = 0 ↔ (1 : ℚ) / 4 = 0) ∧
    ((scenarioStats.ApplySelectivity (1 / 2)).ApplySelectivity (1 / 4)).rowCount
      = (scenarioStats.ApplySelectivity ((1 / 2) * (1 / 4))).rowCount ∧
    ((scenarioStats.ApplySelectivity (1 / 2)).ApplySelectivity (1 / 4)).selectivity
      = (scenarioStats.ApplySelectivity ((1 / 2) * (1 / 4))).selectivity :=
  ⟨by norm_num, by norm_num, by norm_num,
    (Statistics.ApplySelectivity_compose scenarioStats (1 / 2) (1 / 4)
      (by norm_num) (by norm_num)).1,
    (Statistics.ApplySelectivity_compose scenarioStats (1 / 2) (1 / 4)
      (by norm_num) (by norm_num)).2 (by norm_num)⟩

end StatisticsApply

/-! ## ColumnStatistic.ApplySelectivity -/

section ColumnApply

variable {F : Type} [LinearOrderedField F]

/-- C6: ColumnStatistic.ApplySelectivity keeps the distinct count `d` when the
selectivity is 1 or `d = 0`, sets it to 0 when the selectivity is 0 (and
`d ≠ 0`), and otherwise sets it to `d - d * pow (1 - s) (n / d)`; the column set
is unchanged. -/
theorem ColumnStatistic.ApplySelectivity_formula (pow : F → F → F) (c : ColumnStatistic F)
    (s n : F) :
    (s = 1 ∨ c.distinctCount = 0 →
      (c.ApplySelectivity pow s n).distinctCount = c.distinctCount) ∧
    (s = 0 → c.distinctCount ≠ 0 → (c.ApplySelectivity pow s n).distinctCount = 0) ∧
    (s ≠ 1 → s ≠ 0 → c.distinctCount ≠ 0 →
      (c.ApplySelectivity pow s n).distinctCount
        = c.distinctCount - c.distinctCount * pow (1 - s) (n / c.distinctCount)) ∧
    (c.ApplySelectivity pow s n).Cols = c.Cols := by
  refine ⟨?_, ?_, ?_, ?_⟩
  · intro h
    simp only [ColumnStatistic.ApplySelectivity, ColumnStatistic.DistinctCount, if_pos h]
  · intro h0 hd
    have h1 : ¬ (s = 1 ∨ c.distinctCount = 0) := by
      rintro (h | h)
      · rw [h0] at h
        exact zero_ne_one h
      · exact hd h
    simp only [ColumnStatistic.ApplySelectivity, ColumnStatistic.DistinctCount, if_neg h1,
      if_pos h0, ColumnStatistic.UpdateDistinctCount]
  · intro h1 h0 hd
    have h1 : ¬ (s = 1 ∨ c.distinctCount = 0) := by
      rintro (h | h)
      · exact h1 h
      · exact hd h
    simp only [ColumnStatistic.ApplySelectivity, ColumnStatistic.DistinctCount, if_neg h1,
      if_neg h0, ColumnStatistic.UpdateDistinctCount]
  · simp only [ColumnStatistic.ApplySelectivity, ColumnStatistic.UpdateDistinctCount]
    split_ifs <;> rfl

/-- C6, the scenario of the specification with the real power function:
distinct count 100, selectivity 1/2 and input row count 1000 give
`100 - 100 * (1/2)^10 = 99.90234375`. -/
theorem ColumnStatistic.ApplySelectivity_formula_witness :
    ((1 : ℝ) / 2 ≠ 1) ∧ ((1 : ℝ) / 2 ≠ 0) ∧ ((100 : ℝ) ≠ 0) ∧
    (ColumnStatistic.ApplySelectivity (fun x y : ℝ => x ^ y)
        { Cols := {1}, distinctCount := 100 } (1 / 2) 1000).distinctCount = 99.90234375 := by
  have h := (ColumnStatistic.ApplySelectivity_formula (fun x y : ℝ => x ^ y)
    { Cols := {1}, distinctCount := 100 } (1 / 2) 1000).2.2.1
    (by norm_num) (by norm_num) (by norm_num)
  refine ⟨by norm_num, by norm_num, by norm_num, ?_⟩
  rw [h]
  have e : (1000 : ℝ) / 100 = ((10 : ℕ) : ℝ) := by norm_num
  simp only [e, Real.rpow_natCast]
  norm_num

/-- C7: when the input row count equals the current distinct count `d ≥ 0` and
the selectivity `s` lies in [0, 1], ColumnStatistic.ApplySelectivity yields
exactly `d * s`, for every power function with `pow x 1 = x` (a documented
special case of math.Pow); the short-circuited cases are included. -/
theorem ColumnStatistic.ApplySelectivity_rows_eq_distinct (pow : F → F → F)
    (hpow : ∀ x, pow x 1 = x) (cols : ColSet) (s d : F)
    (_hs0 : 0 ≤ s) (_hs1 : s ≤ 1) (_hd : 0 ≤ d) :
    (ColumnStatistic.ApplySelectivity pow { Cols := cols, distinctCount := d } s d).distinctCount
      = d * s := by
  simp only [ColumnStatistic.ApplySelectivity, ColumnStatistic.DistinctCount,
    ColumnStatistic.UpdateDistinctCount]
  by_cases h1 : s = 1 ∨ d = 0
  · rw [if_pos h1]
    rcases h1 with h | h
    · simp [h]
    · simp [h]
  · rw [if_neg h1]
    by_cases h0 : s = 0
    · rw [if_pos h0]
      simp [h0]
    · rw [if_neg h0]
      have hd : d ≠ 0 := fun h => h1 (Or.inr h)
      simp only [div_self hd, hpow]
      ring

/-- C7 with the real power function, at `d = n = 8` and `s = 1/2`: the distinct
count becomes 4. -/
theorem ColumnStatistic.ApplySelectivity_rows_eq_distinct_witness :
    (∀ x : ℝ, (fun x y : ℝ => x ^ y) x 1 = x) ∧ ((0 : ℝ) ≤ 1 / 2) ∧ ((1 : ℝ) / 2 ≤ 1) ∧
    ((0 : ℝ) ≤ 8) ∧
    (ColumnStatistic.ApplySelectivity (fun x y : ℝ => x ^ y)
        { Cols := {1}, distinctCount := 8 } (1 / 2) 8).distinctCount = 8 * (1 / 2) :=
  ⟨fun x => Real.rpow_one x, by norm_num, by norm_num, by norm_num,
    ColumnStatistic.ApplySelectivity_rows_eq_distinct (fun x y : ℝ => x ^ y)
      (fun x => Real.rpow_one x) {1} (1 / 2) 8 (by norm_num) (by norm_num) (by norm_num)⟩

end ColumnApply

/-! ## ColumnStatistics.Less -/

section LessOrder

/-- A successful Next returns a member of the set that is at least the start value. -/
lemma next_mem_of_ok (s : ColSet) (p : ℕ) (hok : (s.Next p).2 = true) :
    (s.Next p).1 ∈ s ∧ p ≤ (s.Next p).1 := by
  unfold ColSet.Next at hok ⊢
  by_cases h : (s.filter (fun x => p ≤ x)).Nonempty
  · simp only [dif_pos h]
    have hm := Finset.min'_mem _ h
    exact Finset.mem_filter.mp hm
  · simp [dif_neg h] at hok

/-- Asking again from a member returns that member: Next does not advance past
its own result. -/
lemma next_of_mem (s : ColSet) (v : ℕ) (hv : v ∈ s) : s.Next v = (v, true) := by
  unfold ColSet.Next
  have hmem : v ∈ s.filter (fun x => v ≤ x) := Finset.mem_filter.mpr ⟨hv, le_rfl⟩
  have h : (s.filter (fun x => v ≤ x)).Nonempty := ⟨v, hmem⟩
  rw [dif_pos h]
  have e : (s.filter (fun x => v ≤ x)).min' h = v :=
    le_antisymm (Finset.min'_le _ v hmem)
      (Finset.le_min' _ h v (fun y hy => (Finset.mem_filter.mp hy).2))
  rw [e]

/-- A failed Next returns MaxInt, and fails again from every later start value. -/
lemma next_of_not_ok (s : ColSet) (p v : ℕ) (hpv : p ≤ v) (hok : (s.Next p).2 = false) :
    (s.Next p).1 = MaxInt ∧ s.Next v = (MaxInt, false) := by
  unfold ColSet.Next at hok ⊢
  by_cases h : (s.filter (fun x => p ≤ x)).Nonempty
  · simp [dif_pos h] at hok
  · have h2 : ¬ (s.filter (fun x => v ≤ x)).Nonempty := by
      rintro ⟨y, hy⟩
      have hy2 := Finset.mem_filter.mp hy
      exact h ⟨y, Finset.mem_filter.mpr ⟨hy2.1, le_trans hpv hy2.2⟩⟩
    simp only [dif_neg h, dif_neg h2, and_self]

/-- The first result of the other set is reproduced when Next is asked again
from it. -/
lemma next_fst_stable (s : ColSet) (p v : ℕ) (hpv : p ≤ v) (hv : (s.Next p).1 = v) :
    (s.Next v).1 = v := by
  cases hok : (s.Next p).2
  · obtain ⟨h1, h2⟩ := next_of_not_ok s p v hpv hok
    rw [h2, ← hv, h1]
  · have hm := (next_mem_of_ok s p hok).1
    rw [hv] at hm
    rw [next_of_mem s v hm]

/-- The tie-break loop returns `false` at once when the first set has no member
from `prev` on. -/
lemma loop_of_not_ok (a b : ColSet) (fuel p : ℕ) (hok : (a.Next p).2 = false) :
    ColumnStatistics.Less.loop a b (fuel + 1) p = some false := by
  simp only [ColumnStatistics.Less.loop, hok, if_true]

/-- The tie-break loop returns at once when the two results of Next differ. -/
lemma loop_of_ne (a b : ColSet) (fuel p : ℕ) (hok : (a.Next p).2 = true)
    (hne : (a.Next p).1 ≠ (b.Next p).1) :
    ColumnStatistics.Less.loop a b (fuel + 1) p
      = some (decide ((a.Next p).1 < (b.Next p).1)) := by
  simp only [ColumnStatistics.Less.loop, hok, Bool.true_eq_false, if_false, ne_eq, hne,
    not_false_eq_true, if_true]

/-- Once the two sets agree on the result of Next, the loop restarts from that
same result and never returns, however much fuel it is given. -/
lemma loop_never_returns (a b : ColSet) :
    ∀ (fuel p : ℕ), (a.Next p).2 = true → (a.Next p).1 = (b.Next p).1 →
      ColumnStatistics.Less.loop a b fuel p = none
  | 0, _, _, _ => rfl
  | fuel + 1, p, hok, heq => by
    obtain ⟨hmem, hle⟩ := next_mem_of_ok a p hok
    have ha : a.Next (a.Next p).1 = ((a.Next p).1, true) := next_of_mem a _ hmem
    have hb : (b.Next (a.Next p).1).1 = (a.Next p).1 :=
      next_fst_stable b p _ hle heq.symm
    have ih := loop_never_returns a b fuel (a.Next p).1 (by rw [ha]) (by rw [ha, hb])
    simp only [ColumnStatistics.Less.loop, hok, Bool.true_eq_false, if_false, ne_eq, heq,
      not_true_eq_false]
    rw [← heq]
    exact ih

/-- From start value 0, Next on a non-empty set returns its smallest member. -/
lemma next_zero_of_nonempty (s : ColSet) (h : s.Nonempty) : s.Next 0 = (s.min' h, true) := by
  have e : s.filter (fun x => 0 ≤ x) = s := Finset.filter_true_of_mem (fun x _ => Nat.zero_le x)
  unfold ColSet.Next
  have h2 : (s.filter (fun x => 0 ≤ x)).Nonempty := by rw [e]; exact h
  rw [dif_pos h2]
  congr 1
  simp only [e]

/-- ColumnStatistics.Less never returns on two column sets of equal cardinality
that share their smallest column identifier. -/
lemma less_never_returns {F : Type} (c : ColumnStatistics F) (i j : Fin c.length)
    (hlen : (c.get i).Cols.card = (c.get j).Cols.card)
    (hi : (c.get i).Cols.Nonempty) (hj : (c.get j).Cols.Nonempty)
    (hmin : (c.get i).Cols.min' hi = (c.get j).Cols.min' hj) (fuel : ℕ) :
    ColumnStatistics.Less fuel c i j = none := by
  unfold ColumnStatistics.Less
  rw [if_neg (by simpa [ColSet.Len] using hlen)]
  apply loop_never_returns
  · rw [next_zero_of_nonempty _ hi]
  · rw [next_zero_of_nonempty _ hi, next_zero_of_nonempty _ hj]
    exact hmin

/-- ColumnStatistics.Less returns the comparison of the cardinalities when they
differ. -/
lemma less_of_len_ne {F : Type} (c : ColumnStatistics F) (i j : Fin c.length)
    (hlen : (c.get i).Cols.card ≠ (c.get j).Cols.card) (fuel : ℕ) :
    ColumnStatistics.Less fuel c i j
      = some (decide ((c.get i).Cols.card < (c.get j).Cols.card)) := by
  unfold ColumnStatistics.Less
  rw [if_pos (by simpa [ColSet.Len] using hlen)]
  rfl

/-- ColumnStatistics.Less returns the comparison of the smallest identifiers
when the cardinalities agree and the smallest identifiers differ. -/
lemma less_of_min_ne {F : Type} (c : ColumnStatistics F) (i j : Fin c.length)
    (hlen : (c.get i).Cols.card = (c.get j).Cols.card)
    (hi : (c.get i).Cols.Nonempty) (hj : (c.get j).Cols.Nonempty)
    (hmin : (c.get i).Cols.min' hi ≠ (c.get j).Cols.min' hj) (fuel : ℕ) :
    ColumnStatistics.Less (fuel + 1) c i j
      = some (decide ((c.get i).Cols.min' hi < (c.get j).Cols.min' hj)) := by
  unfold ColumnStatistics.Less
  rw [if_neg (by simpa [ColSet.Len] using hlen)]
  rw [loop_of_ne _ _ _ _ (by rw [next_zero_of_nonempty _ hi])
    (by rw [next_zero_of_nonempty _ hi, next_zero_of_nonempty _ hj]; exact hmin)]
  rw [next_zero_of_nonempty _ hi, next_zero_of_nonempty _ hj]

/-- The ascending list of a non-empty column set starts with its smallest member. -/
lemma sort_eq_min_cons (s : ColSet) (h : s.Nonempty) :
    ∃ t, s.sort (· ≤ ·) = s.min' h :: t := by
  have hlen : 0 < (s.sort (· ≤ ·)).length := by
    rw [Finset.length_sort]
    exact Finset.card_pos.mpr h
  have h0 := Finset.sorted_zero_eq_min'_aux s hlen h
  cases hl : s.sort (· ≤ ·) with
  | nil => rw [hl] at hlen; simp at hlen
  | cons x t =>
    refine ⟨t, ?_⟩
    have hx : (s.sort (· ≤ ·)).get ⟨0, hlen⟩ = x := by
      simp only [hl, List.get_eq_getElem, List.getElem_cons_zero]
    rw [← h0, hx]

/-- Whenever ColumnStatistics.Less returns a result, it is the result of the
canonical order as the specification words it. -/
lemma less_sound {F : Type} (c : ColumnStatistics F) (i j : Fin c.length) (fuel : ℕ) (r : Bool)
    (h : ColumnStatistics.Less fuel c i j = some r) :
    r = ColumnStatistics.LessSpec (c.get i).Cols (c.get j).Cols := by
  by_cases hlen : (c.get i).Cols.card = (c.get j).Cols.card
  · cases fuel with
    | zero =>
      unfold ColumnStatistics.Less at h
      rw [if_neg (by simpa [ColSet.Len] using hlen)] at h
      simp [ColumnStatistics.Less.loop] at h
    | succ fuel =>
      by_cases hi : (c.get i).Cols.Nonempty
      · have hj : (c.get j).Cols.Nonempty := by
          rw [← Finset.card_pos, ← hlen, Finset.card_pos]
          exact hi
        by_cases hmin : (c.get i).Cols.min' hi = (c.get j).Cols.min' hj
        · rw [less_never_returns c i j hlen hi hj hmin] at h
          exact absurd h (by simp)
        · rw [less_of_min_ne c i j hlen hi hj hmin] at h
          obtain ⟨ti, hti⟩ := sort_eq_min_cons _ hi
          obtain ⟨tj, htj⟩ := sort_eq_min_cons _ hj
          have hr := Option.some.inj h
          simp only [ColumnStatistics.LessSpec, hti, htj, firstDifferenceLess, hlen, if_neg hmin,
            lt_self_iff_false, decide_False, decide_True, Bool.true_and, Bool.false_or]
          exact hr.symm
      · have hie : (c.get i).Cols = ∅ := Finset.not_nonempty_iff_eq_empty.mp hi
        have hje : (c.get j).Cols = ∅ := by
          rw [← Finset.card_eq_zero, ← hlen, hie, Finset.card_empty]
        unfold ColumnStatistics.Less at h
        rw [if_neg (by simpa [ColSet.Len] using hlen), hie, hje] at h
        have hok : ((∅ : ColSet).Next 0).2 = false := by decide
        rw [loop_of_not_ok _ _ _ _ hok] at h
        have hr := Option.some.inj h
        rw [hie, hje, ← hr]
        simp [ColumnStatistics.LessSpec, firstDifferenceLess]
  · rw [less_of_len_ne c i j hlen] at h
    have hr := Option.some.inj h
    simp only [ColumnStatistics.LessSpec, hlen, decide_False, Bool.false_and, Bool.or_false]
    exact hr.symm

/-- The ascending identifier list of a two-element column set. -/
lemma sort_pair (x y : ℕ) (h : x < y) : ({x, y} : ColSet).sort (· ≤ ·) = [x, y] := by
  rw [Finset.sort_insert (r := (· ≤ ·)) (fun b hb => by
      rw [Finset.mem_singleton] at hb
      exact hb ▸ le_of_lt h)
    (fun hmem => by
      rw [Finset.mem_singleton] at hmem
      exact absurd hmem (ne_of_lt h)),
    Finset.sort_singleton]

/-- C8 at the column sets {1,2} and {1,3} (equal cardinality, first difference
2 < 3, so the stated ordering makes Less true) and at {1,2} and {1,2} (equal
sets, so the stated ordering makes Less false): ColumnStatistics.Less returns
no result at all, whatever the number of loop iterations. -/
theorem ColumnStatistics.Less_shared_first_no_result :
    (∀ fuel, ColumnStatistics.Less fuel pairStats ⟨0, by decide⟩ ⟨1, by decide⟩ = none) ∧
    ColumnStatistics.LessSpec {1, 2} {1, 3} = true ∧
    (∀ fuel, ColumnStatistics.Less fuel pairStats ⟨0, by decide⟩ ⟨3, by decide⟩ = none) ∧
    ColumnStatistics.LessSpec {1, 2} {1, 2} = false := by
  refine ⟨fun fuel => ?_, ?_, fun fuel => ?_, ?_⟩
  · exact less_never_returns pairStats ⟨0, by decide⟩ ⟨1, by decide⟩ (by decide)
      ⟨1, by decide⟩ ⟨1, by decide⟩ (by decide) fuel
  · have h1 : ({1, 2} : ColSet).card = 2 := by decide
    have h2 : ({1, 3} : ColSet).card = 2 := by decide
    simp [ColumnStatistics.LessSpec, sort_pair, firstDifferenceLess, h1, h2]
  · exact less_never_returns pairStats ⟨0, by decide⟩ ⟨3, by decide⟩ (by decide)
      ⟨1, by decide⟩ ⟨1, by decide⟩ (by decide) fuel
  · have h1 : ({1, 2} : ColSet).card = 2 := by decide
    simp [ColumnStatistics.LessSpec, sort_pair, firstDifferenceLess, h1]

/-- C9: the tie-break loop of ColumnStatistics.Less, started at `prev = 0`,
does not terminate on the equal sets {4} and {4} nor on {2,5} and {2,7}, which
share their smallest identifier; it returns in its first iteration on {1,3}
and {2,3}, which differ at the first identifier. -/
theorem ColumnStatistics.Less_loop_no_termination :
    (∀ fuel, ColumnStatistics.Less.loop {4} {4} fuel 0 = none) ∧
    (∀ fuel, ColumnStatistics.Less.loop {2, 5} {2, 7} fuel 0 = none) ∧
    ColumnStatistics.Less.loop {1, 3} {2, 3} 1 0 = some true := by
  refine ⟨fun fuel => ?_, fun fuel => ?_, ?_⟩
  · exact loop_never_returns {4} {4} fuel 0 (by decide) (by decide)
  · exact loop_never_returns {2, 5} {2, 7} fuel 0 (by decide) (by decide)
  · decide

/-- C10: ColumnStatistics.Less(a, a) returns no result for the statistic on {1},
so irreflexivity fails; and for the statistics on the different column sets
{2,3} and {2,5} neither Less(a, b) nor Less(b, a) returns a result, so it is not
the case that exactly one of them holds. -/
theorem ColumnStatistics.Less_not_strict_order :
    (∀ fuel, ColumnStatistics.Less fuel pairStats ⟨4, by decide⟩ ⟨4, by decide⟩ = none) ∧
    (∀ fuel, ColumnStatistics.Less fuel pairStats ⟨2, by decide⟩ ⟨5, by decide⟩ = none) ∧
    (∀ fuel, ColumnStatistics.Less fuel pairStats ⟨5, by decide⟩ ⟨2, by decide⟩ = none) :=
  ⟨fun fuel => less_never_returns pairStats ⟨4, by decide⟩ ⟨4, by decide⟩ (by decide)
      ⟨1, by decide⟩ ⟨1, by decide⟩ (by decide) fuel,
   fun fuel => less_never_returns pairStats ⟨2, by decide⟩ ⟨5, by decide⟩ (by decide)
      ⟨2, by decide⟩ ⟨2, by decide⟩ (by decide) fuel,
   fun fuel => less_never_returns pairStats ⟨5, by decide⟩ ⟨2, by decide⟩ (by decide)
      ⟨2, by decide⟩ ⟨2, by decide⟩ (by decide) fuel⟩

end LessOrder

/-! ## Statistics.Init -/

section InitStats

variable {F : Type} [LinearOrderedField F]

/-- C13: Statistics.Init returns `true` exactly when the cardinality bound is
zero; it then sets row count 0 and selectivity 0; otherwise it sets selectivity
1 and leaves the row count at its prior value; the column statistics are
unchanged in both cases. -/
theorem Statistics.Init_spec {Card : Type} (IsZero : Card → Bool) (s : Statistics F)
    (relProps : Relational Card) :
    ((s.Init IsZero relProps).2 = true ↔ IsZero relProps.Cardinality = true) ∧
    (IsZero relProps.Cardinality = true →
      (s.Init IsZero relProps).1.rowCount = 0 ∧ (s.Init IsZero relProps).1.selectivity = 0) ∧
    (IsZero relProps.Cardinality = false →
      (s.Init IsZero relProps).1.selectivity = 1 ∧
      (s.Init IsZero relProps).1.rowCount = s.rowCount) ∧
    (s.Init IsZero relProps).1.ColStats = s.ColStats := by
  cases h : IsZero relProps.Cardinality <;>
    simp [Statistics.Init, h, Statistics.UpdateRowCount, Statistics.UpdateSelectivity]

/-- C13 at the scenario state with a bound type `Bool` whose zero predicate is
the identity: an empty bound gives row count 0 and selectivity 0, a non-empty
bound keeps row count 1000 and sets selectivity 1. -/
theorem Statistics.Init_spec_witness :
    ((scenarioStats.Init id { Cardinality := true }).2 = true ∧
      (scenarioStats.Init id { Cardinality := true }).1.rowCount = 0 ∧
      (scenarioStats.Init id { Cardinality := true }).1.selectivity = 0) ∧
    ((scenarioStats.Init id { Cardinality := false }).2 = false ∧
      (scenarioStats.Init id { Cardinality := false }).1.selectivity = 1 ∧
      (scenarioStats.Init id { Cardinality := false }).1.rowCount = 1000) := by
  have h1 := Statistics.Init_spec id scenarioStats { Cardinality := true }
  have h2 := Statistics.Init_spec id scenarioStats { Cardinality := false }
  refine ⟨⟨h1.1.mpr rfl, (h1.2.1 rfl).1, (h1.2.1 rfl).2⟩, ⟨?_, (h2.2.2.1 rfl).1, ?_⟩⟩
  · cases h : (scenarioStats.Init id { Cardinality := false }).2
    · rfl
    · exact absurd (h2.1.mp h) (by simp)
  · rw [(h2.2.2.1 rfl).2]
    rfl

end InitStats

/-! ## Division by the distinct count -/

section Division

variable {F : Type} [LinearOrderedField F]

/-- C14: in ColumnStatistic.ApplySelectivity the quotient `n / d` is never
evaluated with `d = 0`: the method with the checked quotient never fails and
agrees with the method itself, and with distinct count 0 the statistic is
returned as it is, for every selectivity and every input row count. -/
theorem ColumnStatistic.ApplySelectivity_division_safe (pow : F → F → F)
    (c : ColumnStatistic F) (s n : F) :
    c.ApplySelectivityChecked pow s n = some (c.ApplySelectivity pow s n) ∧
    (c.distinctCount = 0 → c.ApplySelectivity pow s n = c) ∧
    (c.ApplySelectivity pow s n ≠ c → c.distinctCount ≠ 0) := by
  refine ⟨?_, ?_, ?_⟩
  · unfold ColumnStatistic.ApplySelectivityChecked ColumnStatistic.ApplySelectivity
    by_cases h1 : s = 1 ∨ c.DistinctCount = 0
    · rw [if_pos h1, if_pos h1]
    · rw [if_neg h1, if_neg h1]
      by_cases h0 : s = 0
      · rw [if_pos h0, if_pos h0]
      · rw [if_neg h0, if_neg h0]
        have hd : c.DistinctCount ≠ 0 := fun h => h1 (Or.inr h)
        simp only [checkedDiv, if_neg hd]
  · intro hd
    have hd0 : c.DistinctCount = 0 := hd
    unfold ColumnStatistic.ApplySelectivity
    rw [if_pos (Or.inr hd0)]
  · intro hne hd
    have hd0 : c.DistinctCount = 0 := hd
    apply hne
    unfold ColumnStatistic.ApplySelectivity
    rw [if_pos (Or.inr hd0)]

/-- C14 with the real power function, at distinct count 0, selectivity 1/2 and
input row count 1000: the statistic is returned unchanged. -/
theorem ColumnStatistic.ApplySelectivity_division_safe_witness :
    ColumnStatistic.ApplySelectivity (fun x y : ℝ => x ^ y)
      { Cols := {1}, distinctCount := 0 } (1 / 2) 1000 = { Cols := {1}, distinctCount := 0 } :=
  (ColumnStatistic.ApplySelectivity_division_safe (fun x y : ℝ => x ^ y)
    { Cols := {1}, distinctCount := 0 } (1 / 2) 1000).2.1 rfl

end Division

/-! ## Composition and ranges of Statistics.ApplySelectivity -/

section Ranges

variable {F : Type} [LinearOrderedField F]

/-- C19 as amended: in exact arithmetic, for a row count `r ≥ 0` and `s1`,
`s2` in [0, 1], the column statistics after Statistics.ApplySelectivity with
`s1` and then `s2` are those after the single call with `s1 * s2`; every
distinct count `d` has become `min d (r * s1 * s2)` when `s1` and `s2` are
nonzero, and 0 when `s1` or `s2` is 0. -/
theorem Statistics.distinctCounts_compose (st : Statistics F) (s1 s2 : F)
    (hr : 0 ≤ st.rowCount) (h1 : 0 ≤ s1 ∧ s1 ≤ 1) (h2 : 0 ≤ s2 ∧ s2 ≤ 1) :
    ((st.ApplySelectivity s1).ApplySelectivity s2).ColStats
      = (st.ApplySelectivity (s1 * s2)).ColStats ∧
    (s1 ≠ 0 → s2 ≠ 0 →
      ((st.ApplySelectivity s1).ApplySelectivity s2).ColStats
        = st.ColStats.map
            (fun c => { c with distinctCount := min c.distinctCount (st.rowCount * s1 * s2) })) ∧
    (s1 = 0 ∨ s2 = 0 →
      ((st.ApplySelectivity s1).ApplySelectivity s2).ColStats
        = st.ColStats.map (fun c => { c with distinctCount := 0 })) := by
  by_cases hs1 : s1 = 0
  · subst hs1
    by_cases hs2 : s2 = 0
    · subst hs2
      have e : ((st.ApplySelectivity 0).ApplySelectivity 0).ColStats
          = st.ColStats.map (fun c => { c with distinctCount := 0 }) := by
        simp only [applySelectivity_zero_eq, List.map_map]
        rfl
      refine ⟨?_, fun h => absurd rfl h, fun _ => e⟩
      rw [e, zero_mul, applySelectivity_zero_eq]
    · have e : ((st.ApplySelectivity 0).ApplySelectivity s2).ColStats
          = st.ColStats.map (fun c => { c with distinctCount := 0 }) := by
        rw [applySelectivity_ne_zero_eq _ s2 hs2, applySelectivity_zero_eq]
        simp only [List.map_map, zero_mul]
        apply List.map_congr_left
        intro c _
        simp only [Function.comp, min_self]
      refine ⟨?_, fun h => absurd rfl h, fun _ => e⟩
      rw [e, zero_mul, applySelectivity_zero_eq]
  · by_cases hs2 : s2 = 0
    · subst hs2
      have e : ((st.ApplySelectivity s1).ApplySelectivity 0).ColStats
          = st.ColStats.map (fun c => { c with distinctCount := 0 }) := by
        rw [applySelectivity_zero_eq, applySelectivity_ne_zero_eq _ s1 hs1]
        simp only [List.map_map]
        rfl
      refine ⟨?_, fun _ h => absurd rfl h, fun _ => e⟩
      rw [e, mul_zero, applySelectivity_zero_eq]
    · have e : ((st.ApplySelectivity s1).ApplySelectivity s2).ColStats
          = st.ColStats.map
              (fun c => { c with distinctCount := min c.distinctCount (st.rowCount * s1 * s2) }) := by
        rw [applySelectivity_ne_zero_eq _ s2 hs2, applySelectivity_ne_zero_eq _ s1 hs1]
        simp only [List.map_map]
        apply List.map_congr_left
        intro c _
        have hle : st.rowCount * s1 * s2 ≤ st.rowCount * s1 :=
          mul_le_of_le_one_right (mul_nonneg hr h1.1) h2.2
        simp only [Function.comp, min_assoc, min_eq_right hle]
      refine ⟨?_, fun _ _ => e, fun h => ?_⟩
      · rw [e, applySelectivity_ne_zero_eq _ (s1 * s2) (mul_ne_zero hs1 hs2)]
        simp only [mul_assoc]
      · rcases h with h | h
        · exact absurd h hs1
        · exact absurd h hs2

/-- C19 as amended, at the state with row count 10 and distinct count 100,
with `s1 = 1/2` and `s2 = 1/4`: the distinct count is 5/4 either way. -/
theorem Statistics.distinctCounts_compose_witness :
    ((0 : ℚ) ≤ unclampedStats.rowCount) ∧ ((0 : ℚ) ≤ 1 / 2 ∧ (1 : ℚ) / 2 ≤ 1) ∧
    ((0 : ℚ) ≤ 1 / 4 ∧ (1 : ℚ) / 4 ≤ 1) ∧
    ((unclampedStats.ApplySelectivity (1 / 2)).ApplySelectivity (1 / 4)).ColStats
      = (unclampedStats.ApplySelectivity ((1 / 2) * (1 / 4))).ColStats ∧
    ((unclampedStats.ApplySelectivity (1 / 2)).ApplySelectivity (1 / 4)).ColStats.map
        (fun c => c.distinctCount) = [5 / 4] := by
  have h := Statistics.distinctCounts_compose unclampedStats (1 / 2) (1 / 4)
    (by norm_num [unclampedStats]) (by norm_num) (by norm_num)
  refine ⟨by norm_num [unclampedStats], by norm_num, by norm_num, h.1, ?_⟩
  rw [h.2.1 (by norm_num) (by norm_num)]
  norm_num [unclampedStats]

/-- C20: the ranges of the data model are an invariant of
Statistics.ApplySelectivity: from row count `≥ 0`, selectivity field in [0, 1]
and distinct counts `≥ 0`, an argument in [0, 1] leads to a state with row
count `≥ 0`, selectivity field in [0, 1] and distinct counts `≥ 0`, in which
neither the row count nor any distinct count has increased. -/
theorem Statistics.ApplySelectivity_ranges (st : Statistics F) (s : F)
    (hr : 0 ≤ st.rowCount) (hq : 0 ≤ st.selectivity ∧ st.selectivity ≤ 1)
    (hd : ∀ c ∈ st.ColStats, 0 ≤ c.distinctCount) (hs : 0 ≤ s ∧ s ≤ 1) :
    0 ≤ (st.ApplySelectivity s).rowCount ∧
    (0 ≤ (st.ApplySelectivity s).selectivity ∧ (st.ApplySelectivity s).selectivity ≤ 1) ∧
    (∀ c ∈ (st.ApplySelectivity s).ColStats, 0 ≤ c.distinctCount) ∧
    (st.ApplySelectivity s).rowCount ≤ st.rowCount ∧
    List.Forall₂ (fun c' c => c'.Cols = c.Cols ∧ c'.distinctCount ≤ c.distinctCount)
      (st.ApplySelectivity s).ColStats st.ColStats := by
  by_cases hs0 : s = 0
  · subst hs0
    rw [applySelectivity_zero_eq]
    refine ⟨le_rfl, hq, ?_, hr, ?_⟩
    · intro c hc
      simp only [List.mem_map] at hc
      obtain ⟨a, _, rfl⟩ := hc
      exact le_rfl
    · rw [List.forall₂_map_left_iff]
      exact List.forall₂_same.mpr (fun c hc => ⟨rfl, hd c hc⟩)
  · rw [applySelectivity_ne_zero_eq _ s hs0]
    have hrs : 0 ≤ st.rowCount * s := mul_nonneg hr hs.1
    refine ⟨hrs, ⟨mul_nonneg hq.1 hs.1, mul_le_one₀ hq.2 hs.1 hs.2⟩, ?_,
      mul_le_of_le_one_right hr hs.2, ?_⟩
    · intro c hc
      simp only [List.mem_map] at hc
      obtain ⟨a, ha, rfl⟩ := hc
      exact le_min (hd a ha) hrs
    · rw [List.forall₂_map_left_iff]
      exact List.forall₂_same.mpr (fun c _ => ⟨rfl, min_le_left _ _⟩)

/-- C20 at the state with row count 10 and distinct count 100, with argument
1/2. -/
theorem Statistics.ApplySelectivity_ranges_witness :
    ((0 : ℚ) ≤ unclampedStats.rowCount) ∧
    ((0 : ℚ) ≤ unclampedStats.selectivity ∧ unclampedStats.selectivity ≤ 1) ∧
    (∀ c ∈ unclampedStats.ColStats, (0 : ℚ) ≤ c.distinctCount) ∧
    ((0 : ℚ) ≤ 1 / 2 ∧ (1 : ℚ) / 2 ≤ 1) ∧
    0 ≤ (unclampedStats.ApplySelectivity (1 / 2)).rowCount ∧
    (unclampedStats.ApplySelectivity (1 / 2)).rowCount ≤ unclampedStats.rowCount := by
  have hd : ∀ c ∈ unclampedStats.ColStats, (0 : ℚ) ≤ c.distinctCount := by
    intro c hc
    simp only [unclampedStats, List.mem_singleton] at hc
    subst hc
    norm_num
  have h := Statistics.ApplySelectivity_ranges unclampedStats (1 / 2)
    (by norm_num [unclampedStats]) (by norm_num [unclampedStats]) hd (by norm_num)
  exact ⟨by norm_num [unclampedStats], by norm_num [unclampedStats], hd, by norm_num,
    h.1, h.2.2.2.1⟩

end Ranges

/-! ## Bounds of the attenuation formula over the real numbers -/

section RealBounds

/-- The attenuation branch over the real numbers: for a selectivity other than
0 and 1 and a distinct count other than 0 the new distinct count is
`d - d * (1 - s) ^ (n / d)`. -/
lemma applySelectivity_real_formula (cols : ColSet) (s n d : ℝ) (h1 : s ≠ 1) (h0 : s ≠ 0)
    (hd : d ≠ 0) :
    (ColumnStatistic.ApplySelectivity (fun x y : ℝ => x ^ y)
        { Cols := cols, distinctCount := d } s n).distinctCount
      = d - d * (1 - s) ^ (n / d) := by
  have h : ¬ (s = 1 ∨ d = 0) := by
    rintro (h | h)
    · exact h1 h
    · exact hd h
  simp only [ColumnStatistic.ApplySelectivity, ColumnStatistic.DistinctCount, if_neg h,
    if_neg h0, ColumnStatistic.UpdateDistinctCount]

/-- With selectivity 1 or distinct count 0 the distinct count is kept. -/
lemma applySelectivity_real_keep (cols : ColSet) (s n d : ℝ) (h : s = 1 ∨ d = 0) :
    (ColumnStatistic.ApplySelectivity (fun x y : ℝ => x ^ y)
        { Cols := cols, distinctCount := d } s n).distinctCount = d := by
  simp only [ColumnStatistic.ApplySelectivity, ColumnStatistic.DistinctCount, if_pos h]

/-- With selectivity 0 the distinct count becomes 0. -/
lemma applySelectivity_real_zero (cols : ColSet) (n d : ℝ) :
    (ColumnStatistic.ApplySelectivity (fun x y : ℝ => x ^ y)
        { Cols := cols, distinctCount := d } 0 n).distinctCount = 0 := by
  by_cases hd : d = 0
  · rw [applySelectivity_real_keep cols 0 n d (Or.inr hd), hd]
  · have h : ¬ ((0 : ℝ) = 1 ∨ d = 0) := by
      rintro (h | h)
      · exact zero_ne_one h
      · exact hd h
    simp only [ColumnStatistic.ApplySelectivity, ColumnStatistic.DistinctCount, if_neg h,
      if_true, ColumnStatistic.UpdateDistinctCount]

/-- C18: for a selectivity in [0, 1], an input row count `≥ 0` and a distinct
count `d ≥ 0`, the distinct count produced by ColumnStatistic.ApplySelectivity
(with the real power function) lies between 0 and `d`. -/
theorem ColumnStatistic.ApplySelectivity_between (cols : ColSet) (s n d : ℝ)
    (hs : 0 ≤ s ∧ s ≤ 1) (hn : 0 ≤ n) (hd : 0 ≤ d) :
    0 ≤ (ColumnStatistic.ApplySelectivity (fun x y : ℝ => x ^ y)
        { Cols := cols, distinctCount := d } s n).distinctCount ∧
    (ColumnStatistic.ApplySelectivity (fun x y : ℝ => x ^ y)
        { Cols := cols, distinctCount := d } s n).distinctCount ≤ d := by
  by_cases h1 : s = 1 ∨ d = 0
  · rw [applySelectivity_real_keep cols s n d h1]
    exact ⟨hd, le_rfl⟩
  · have hs1 : s ≠ 1 := fun h => h1 (Or.inl h)
    have hd0 : d ≠ 0 := fun h => h1 (Or.inr h)
    by_cases h0 : s = 0
    · subst h0
      rw [applySelectivity_real_zero]
      exact ⟨le_rfl, hd⟩
    · rw [applySelectivity_real_formula cols s n d hs1 h0 hd0]
      have ht0 : 0 ≤ 1 - s := by linarith [hs.2]
      have ht1 : 1 - s ≤ 1 := by linarith [hs.1]
      have hx : 0 ≤ n / d := div_nonneg hn hd
      have hp1 : (1 - s) ^ (n / d) ≤ 1 := Real.rpow_le_one ht0 ht1 hx
      have hp0 : 0 ≤ (1 - s) ^ (n / d) := Real.rpow_nonneg ht0 _
      constructor
      · nlinarith [mul_le_mul_of_nonneg_left hp1 hd]
      · nlinarith [mul_nonneg hd hp0]

/-- C18 at distinct count 100, selectivity 1/2 and input row count 1000. -/
theorem ColumnStatistic.ApplySelectivity_between_witness :
    ((0 : ℝ) ≤ 1 / 2 ∧ (1 : ℝ) / 2 ≤ 1) ∧ ((0 : ℝ) ≤ 1000) ∧ ((0 : ℝ) ≤ 100) ∧
    0 ≤ (ColumnStatistic.ApplySelectivity (fun x y : ℝ => x ^ y)
        { Cols := {1}, distinctCount := 100 } (1 / 2) 1000).distinctCount ∧
    (ColumnStatistic.ApplySelectivity (fun x y : ℝ => x ^ y)
        { Cols := {1}, distinctCount := 100 } (1 / 2) 1000).distinctCount ≤ 100 :=
  ⟨by norm_num, by norm_num, by norm_num,
    ColumnStatistic.ApplySelectivity_between {1} (1 / 2) 1000 100
      (by norm_num) (by norm_num) (by norm_num)⟩

/-- C17 as amended: in exact arithmetic (real numbers, with the real power
function for math.Pow), for a selectivity `s` in [0, 1] and `0 < d ≤ n`, the
distinct count produced by ColumnStatistic.ApplySelectivity is at least `d * s`
and at most `s * n`. -/
theorem ColumnStatistic.ApplySelectivity_proportional (cols : ColSet) (s n d : ℝ)
    (hs : 0 ≤ s ∧ s ≤ 1) (hd : 0 < d) (hdn : d ≤ n) :
    d * s ≤ (ColumnStatistic.ApplySelectivity (fun x y : ℝ => x ^ y)
        { Cols := cols, distinctCount := d } s n).distinctCount ∧
    (ColumnStatistic.ApplySelectivity (fun x y : ℝ => x ^ y)
        { Cols := cols, distinctCount := d } s n).distinctCount ≤ s * n := by
  by_cases h1 : s = 1
  · rw [applySelectivity_real_keep cols s n d (Or.inl h1), h1]
    exact ⟨by linarith, by linarith⟩
  · by_cases h0 : s = 0
    · subst h0
      rw [applySelectivity_real_zero]
      exact ⟨by linarith, by linarith⟩
    · rw [applySelectivity_real_formula cols s n d h1 h0 (ne_of_gt hd)]
      have hs0 : 0 < s := lt_of_le_of_ne hs.1 (Ne.symm h0)
      have hs1 : s < 1 := lt_of_le_of_ne hs.2 h1
      have hx : 1 ≤ n / d := (one_le_div hd).mpr hdn
      have hlow : (1 - s) ^ (n / d) ≤ 1 - s := by
        have h := Real.rpow_le_rpow_of_exponent_ge (by linarith : 0 < 1 - s)
          (by linarith : 1 - s ≤ 1) hx
        rwa [Real.rpow_one] at h
      have hbern : 1 + n / d * (-s) ≤ (1 + -s) ^ (n / d) :=
        one_add_mul_self_le_rpow_one_add (by linarith : (-1 : ℝ) ≤ -s) hx
      have hbern2 : 1 - n / d * s ≤ (1 - s) ^ (n / d) := by
        have e1 : (1 : ℝ) + n / d * (-s) = 1 - n / d * s := by ring
        have e2 : (1 : ℝ) + -s = 1 - s := by ring
        rw [e1, e2] at hbern
        exact hbern
      have hnd : d * (n / d) = n := mul_div_cancel₀ n (ne_of_gt hd)
      constructor
      · nlinarith [mul_le_mul_of_nonneg_left hlow (le_of_lt hd)]
      · have h3 := mul_le_mul_of_nonneg_left hbern2 (le_of_lt hd)
        have h4 : d * (1 - n / d * s) = d - n * s := by
          rw [mul_sub, mul_one, ← mul_assoc, hnd]
        rw [h4] at h3
        linarith

/-- C17 as amended, at distinct count 100, selectivity 1/2 and input row count
1000: the new distinct count lies between 50 and 500. -/
theorem ColumnStatistic.ApplySelectivity_proportional_witness :
    ((0 : ℝ) ≤ 1 / 2 ∧ (1 : ℝ) / 2 ≤ 1) ∧ ((0 : ℝ) < 100) ∧ ((100 : ℝ) ≤ 1000) ∧
    100 * (1 / 2) ≤ (ColumnStatistic.ApplySelectivity (fun x y : ℝ => x ^ y)
        { Cols := {1}, distinctCount := 100 } (1 / 2) 1000).distinctCount ∧
    (ColumnStatistic.ApplySelectivity (fun x y : ℝ => x ^ y)
        { Cols := {1}, distinctCount := 100 } (1 / 2) 1000).distinctCount ≤ 1 / 2 * 1000 :=
  ⟨by norm_num, by norm_num, by norm_num,
    ColumnStatistic.ApplySelectivity_proportional {1} (1 / 2) 1000 100
      (by norm_num) (by norm_num) (by norm_num)⟩

/-- The attenuation formula `d - d * (1 - s) ^ (n / d)` is continuous in `s`
when `n / d ≥ 0`. -/
lemma attenuation_continuousAt (n d a : ℝ) (hx : 0 ≤ n / d) :
    ContinuousAt (fun s : ℝ => d - d * (1 - s) ^ (n / d)) a := by
  have h1 : ContinuousAt (fun s : ℝ => 1 - s) a := (continuous_const.sub continuous_id).continuousAt
  have h2 : ContinuousAt (fun s : ℝ => (1 - s) ^ (n / d)) a := h1.rpow_const (Or.inr hx)
  exact continuousAt_const.sub (continuousAt_const.mul h2)

/-- C15 fails as stated for the input row count 0: with distinct count 1 the
produced distinct count is 0 for every selectivity strictly between 0 and 1, so
it does not tend to 1 as the selectivity tends to 1, neither along (0, 1) nor
along [0, 1]. -/
theorem ColumnStatistic.attenuation_no_limit_without_rows :
    (¬ Filter.Tendsto (fun s : ℝ => (ColumnStatistic.ApplySelectivity (fun x y : ℝ => x ^ y)
          { Cols := {1}, distinctCount := 1 } s 0).distinctCount)
        (nhdsWithin 1 (Set.Ioo 0 1)) (nhds 1)) ∧
    (¬ Filter.Tendsto (fun s : ℝ => (ColumnStatistic.ApplySelectivity (fun x y : ℝ => x ^ y)
          { Cols := {1}, distinctCount := 1 } s 0).distinctCount)
        (nhdsWithin 1 (Set.Icc 0 1)) (nhds 1)) := by
  have hzero : Filter.Tendsto (fun s : ℝ =>
      (ColumnStatistic.ApplySelectivity (fun x y : ℝ => x ^ y)
        { Cols := {1}, distinctCount := 1 } s 0).distinctCount)
      (nhdsWithin 1 (Set.Ioo 0 1)) (nhds 0) := by
    refine Filter.Tendsto.congr' ?_ tendsto_const_nhds
    filter_upwards [self_mem_nhdsWithin] with s hs
    rw [applySelectivity_real_formula {1} s 0 1 (ne_of_lt hs.2) (ne_of_gt hs.1) one_ne_zero]
    simp
  have hbot : (nhdsWithin (1 : ℝ) (Set.Ioo 0 1)).NeBot := right_nhdsWithin_Ioo_neBot zero_lt_one
  have hIoo : ¬ Filter.Tendsto (fun s : ℝ =>
      (ColumnStatistic.ApplySelectivity (fun x y : ℝ => x ^ y)
        { Cols := {1}, distinctCount := 1 } s 0).distinctCount)
      (nhdsWithin 1 (Set.Ioo 0 1)) (nhds 1) := by
    intro h
    exact zero_ne_one (tendsto_nhds_unique hzero h)
  refine ⟨hIoo, fun h => hIoo (h.mono_left (nhdsWithin_mono 1 Set.Ioo_subset_Icc_self))⟩

/-- C15 as amended: for a distinct count `d > 0` and an input row count
`n ≥ 0`, the distinct count produced by ColumnStatistic.ApplySelectivity (with
the real power function) tends to 0 as the selectivity tends to 0 within
[0, 1]; and for `n > 0` it tends to `d` as the selectivity tends to 1 within
[0, 1]. -/
theorem ColumnStatistic.attenuation_limits (cols : ColSet) (n d : ℝ) (hd : 0 < d)
    (hn : 0 ≤ n) :
    Filter.Tendsto (fun s : ℝ => (ColumnStatistic.ApplySelectivity (fun x y : ℝ => x ^ y)
          { Cols := cols, distinctCount := d } s n).distinctCount)
        (nhdsWithin 0 (Set.Icc 0 1)) (nhds 0) ∧
    (0 < n →
      Filter.Tendsto (fun s : ℝ => (ColumnStatistic.ApplySelectivity (fun x y : ℝ => x ^ y)
          { Cols := cols, distinctCount := d } s n).distinctCount)
        (nhdsWithin 1 (Set.Icc 0 1)) (nhds d)) := by
  have hx : 0 ≤ n / d := div_nonneg hn (le_of_lt hd)
  constructor
  · have hg : Filter.Tendsto (fun s : ℝ => d - d * (1 - s) ^ (n / d))
        (nhdsWithin 0 (Set.Icc 0 1)) (nhds 0) := by
      have hc := (attenuation_continuousAt n d 0 hx).tendsto
      have e : d - d * (1 - (0 : ℝ)) ^ (n / d) = 0 := by
        rw [sub_zero, Real.one_rpow, mul_one, sub_self]
      rw [e] at hc
      exact tendsto_nhdsWithin_of_tendsto_nhds hc
    refine Filter.Tendsto.congr' ?_ hg
    filter_upwards [self_mem_nhdsWithin,
      mem_nhdsWithin_of_mem_nhds (Iio_mem_nhds (zero_lt_one : (0 : ℝ) < 1))] with s hs hlt
    by_cases h0 : s = 0
    · subst h0
      rw [applySelectivity_real_zero, sub_zero, Real.one_rpow, mul_one, sub_self]
    · rw [applySelectivity_real_formula cols s n d (ne_of_lt hlt) h0 (ne_of_gt hd)]
  · intro hnpos
    have hxpos : 0 < n / d := div_pos hnpos hd
    have hg : Filter.Tendsto (fun s : ℝ => d - d * (1 - s) ^ (n / d))
        (nhdsWithin 1 (Set.Icc 0 1)) (nhds d) := by
      have hc := (attenuation_continuousAt n d 1 hx).tendsto
      have e : d - d * (1 - (1 : ℝ)) ^ (n / d) = d := by
        rw [sub_self, Real.zero_rpow (ne_of_gt hxpos), mul_zero, sub_zero]
      rw [e] at hc
      exact tendsto_nhdsWithin_of_tendsto_nhds hc
    refine Filter.Tendsto.congr' ?_ hg
    filter_upwards [self_mem_nhdsWithin,
      mem_nhdsWithin_of_mem_nhds (Ioi_mem_nhds (zero_lt_one : (0 : ℝ) < 1))] with s hs hgt
    by_cases h1 : s = 1
    · subst h1
      rw [applySelectivity_real_keep cols 1 n d (Or.inl rfl), sub_self,
        Real.zero_rpow (ne_of_gt hxpos), mul_zero, sub_zero]
    · rw [applySelectivity_real_formula cols s n d h1 (ne_of_gt hgt) (ne_of_gt hd)]

/-- C15 as amended, at distinct count 100 and input row count 1000. -/
theorem ColumnStatistic.attenuation_limits_witness :
    ((0 : ℝ) < 100) ∧ ((0 : ℝ) ≤ 1000) ∧ ((0 : ℝ) < 1000) ∧
    Filter.Tendsto (fun s : ℝ => (ColumnStatistic.ApplySelectivity (fun x y : ℝ => x ^ y)
          { Cols := {1}, distinctCount := 100 } s 1000).distinctCount)
        (nhdsWithin 0 (Set.Icc 0 1)) (nhds 0) ∧
    Filter.Tendsto (fun s : ℝ => (ColumnStatistic.ApplySelectivity (fun x y : ℝ => x ^ y)
          { Cols := {1}, distinctCount := 100 } s 1000).distinctCount)
        (nhdsWithin 1 (Set.Icc 0 1)) (nhds 100) :=
  ⟨by norm_num, by norm_num, by norm_num,
    (ColumnStatistic.attenuation_limits {1} 1000 100 (by norm_num) (by norm_num)).1,
    (ColumnStatistic.attenuation_limits {1} 1000 100 (by norm_num) (by norm_num)).2
      (by norm_num)⟩

end RealBounds

/-! ## Copies -/

section Copies

variable {F : Type}

/-- A copied column statistic has the same column set and distinct count. -/
lemma columnStatistic_copy_eq (c : ColumnStatistic F) : c.Copy = c := by
  cases c
  rfl

/-- Reading every index of a list in turn gives the list back. -/
lemma filterMap_range_getElem? {α : Type} (l : List α) :
    (List.range l.length).filterMap (fun k => l[k]?) = l := by
  induction l using List.reverseRecOn with
  | nil => rfl
  | append_singleton init x ih =>
    rw [List.length_append, List.length_singleton, List.range_succ, List.filterMap_append]
    have h1 : (List.range init.length).filterMap (fun k => (init ++ [x])[k]?)
        = (List.range init.length).filterMap (fun k => init[k]?) := by
      apply List.filterMap_congr
      intro k hk
      exact List.getElem?_append_left (List.mem_range.mp hk)
    rw [h1, ih]
    simp

/-- Writing through pointers leaves every other cell as it was. -/
lemma storeAll_getElem?_of_not_mem :
    ∀ (ptrs : List ℕ) (vals : List (ColumnStatistic F)) (mem : Memory F) (a : ℕ),
      a ∉ ptrs → (mem.storeAll ptrs vals)[a]? = mem[a]?
  | [], _, _, _, _ => by simp [Memory.storeAll]
  | _ :: _, [], _, _, _ => by simp [Memory.storeAll]
  | b :: ptrs, v :: vals, mem, a, h => by
    have hab : b ≠ a := fun e => h (by rw [e]; exact List.mem_cons_self _ _)
    have hrest : a ∉ ptrs := fun hm => h (List.mem_cons_of_mem _ hm)
    rw [Memory.storeAll, storeAll_getElem?_of_not_mem ptrs vals _ a hrest,
      List.getElem?_set_ne hab]

/-- The value of an object depends only on the cells behind its pointers. -/
lemma value_congr (mem1 mem2 : Memory F) (o : StatisticsObj F)
    (h : ∀ a ∈ o.ColStats, mem1[a]? = mem2[a]?) : o.value mem1 = o.value mem2 := by
  unfold StatisticsObj.value
  congr 1
  exact List.filterMap_congr h

/-- The pointers of a copy are fresh: none of them addresses a cell of the
memory the copy was made from. -/
lemma copy_pointers_fresh (mem : Memory F) (o : StatisticsObj F) :
    ∀ a ∈ (o.Copy mem).2.ColStats, mem.length ≤ a := by
  intro a ha
  simp only [StatisticsObj.Copy, ColStatsMap.CopyCells, List.mem_map, List.mem_range] at ha
  obtain ⟨k, _, rfl⟩ := ha
  exact Nat.le_add_right _ _

/-- Copying extends the memory: the cells that existed before are unchanged. -/
lemma copy_memory_extends (mem : Memory F) (o : StatisticsObj F) (a : ℕ)
    (ha : a < mem.length) : (o.Copy mem).1[a]? = mem[a]? := by
  simp only [StatisticsObj.Copy, ColStatsMap.CopyCells]
  exact List.getElem?_append_left ha

/-- The copy denotes the same Statistics value as the original. -/
lemma copy_value (mem : Memory F) (o : StatisticsObj F) :
    (o.Copy mem).2.value (o.Copy mem).1 = o.value mem := by
  have hcopy : (o.ColStats.filterMap (fun a => mem[a]?)).map ColumnStatistic.Copy
      = o.ColStats.filterMap (fun a => mem[a]?) := by
    have hid : (ColumnStatistic.Copy : ColumnStatistic F → ColumnStatistic F) = id :=
      funext columnStatistic_copy_eq
    rw [hid, List.map_id]
  simp only [StatisticsObj.Copy, ColStatsMap.CopyCells, StatisticsObj.value, hcopy]
  congr 1
  rw [List.filterMap_map]
  have h2 : (List.range (o.ColStats.filterMap (fun a => mem[a]?)).length).filterMap
      ((fun a => (mem ++ o.ColStats.filterMap (fun a => mem[a]?))[a]?) ∘ fun k => mem.length + k)
      = (List.range (o.ColStats.filterMap (fun a => mem[a]?)).length).filterMap
          (fun k => (o.ColStats.filterMap (fun a => mem[a]?))[k]?) := by
    apply List.filterMap_congr
    intro k _
    simp only [Function.comp]
    rw [List.getElem?_append_right (Nat.le_add_right _ _), Nat.add_sub_cancel_left]
  rw [h2, filterMap_range_getElem?]

/-- C16: for an object whose pointers address cells of the memory,
Statistics.Copy yields an object denoting the same row count, selectivity and
column statistics and leaves the original as it was; every later mutation of
the copy leaves the value of the original unchanged, and every later mutation
of the original leaves the value of the copy unchanged; on values,
Statistics.Copy and ColumnStatistic.Copy return what they were given. -/
theorem StatisticsObj.Copy_independent (mem : Memory F) (o : StatisticsObj F)
    (hwf : ∀ a ∈ o.ColStats, a < mem.length) :
    (o.Copy mem).2.value (o.Copy mem).1 = o.value mem ∧
    o.value (o.Copy mem).1 = o.value mem ∧
    (∀ op : Statistics F → Statistics F,
      o.value ((o.Copy mem).2.mutate op (o.Copy mem).1).1 = o.value mem) ∧
    (∀ op : Statistics F → Statistics F,
      (o.Copy mem).2.value (o.mutate op (o.Copy mem).1).1 = o.value mem) ∧
    (∀ s : Statistics F, s.Copy = s) ∧
    (∀ c : ColumnStatistic F, c.Copy = c) := by
  have hkeep : o.value (o.Copy mem).1 = o.value mem :=
    value_congr _ _ o (fun a ha => copy_memory_extends mem o a (hwf a ha))
  refine ⟨copy_value mem o, hkeep, ?_, ?_, ?_, columnStatistic_copy_eq⟩
  · intro op
    rw [← hkeep]
    apply value_congr
    intro a ha
    apply storeAll_getElem?_of_not_mem
    intro hmem
    exact absurd (copy_pointers_fresh mem o a hmem) (not_le.mpr (hwf a ha))
  · intro op
    rw [← copy_value mem o]
    apply value_congr
    intro a ha
    apply storeAll_getElem?_of_not_mem
    intro hmem
    exact absurd (copy_pointers_fresh mem o a ha) (not_le.mpr (hwf a hmem))
  · intro s
    cases s with
    | mk r cs q =>
      have hid : (ColumnStatistic.Copy : ColumnStatistic F → ColumnStatistic F) = id :=
        funext columnStatistic_copy_eq
      simp only [Statistics.Copy, hid, List.map_id]

/-- C16 at the scenario: after the copy has been mutated by
Statistics.ApplySelectivity with argument 0 (row count and distinct count
zeroed), the original still denotes row count 1000 and distinct count 100. -/
theorem StatisticsObj.Copy_independent_witness :
    (∀ a ∈ scenarioObj.ColStats, a < scenarioMemory.length) ∧
    scenarioObj.value ((scenarioObj.Copy scenarioMemory).2.mutate
        (fun v => v.ApplySelectivity 0) (scenarioObj.Copy scenarioMemory).1).1
      = scenarioStats := by
  have hwf : ∀ a ∈ scenarioObj.ColStats, a < scenarioMemory.length := by
    intro a ha
    simp only [scenarioObj, List.mem_singleton] at ha
    subst ha
    decide
  refine ⟨hwf, ?_⟩
  rw [(StatisticsObj.Copy_independent scenarioMemory scenarioObj hwf).2.2.1]
  rfl

end Copies

/-! ## Statistics.String -/

section Rendering

variable {F : Type}

/-- The inner loop of the sort does not return when its first call of Less
does not return. -/
lemma inner_none (fuel j : ℕ) (c : ColumnStatistics F) (h : j + 1 < c.length)
    (hl : ColumnStatistics.Less fuel c ⟨j + 1, h⟩ ⟨j, Nat.lt_of_succ_lt h⟩ = none) :
    insertionSort.inner fuel (j + 1) c = none := by
  rw [insertionSort.inner, dif_pos h, hl]

/-- The inner loop of the sort stops when Less returns `false`. -/
lemma inner_false (fuel j : ℕ) (c : ColumnStatistics F) (h : j + 1 < c.length)
    (hl : ColumnStatistics.Less fuel c ⟨j + 1, h⟩ ⟨j, Nat.lt_of_succ_lt h⟩ = some false) :
    insertionSort.inner fuel (j + 1) c = some c := by
  rw [insertionSort.inner, dif_pos h, hl]

/-- The inner loop of the sort swaps and continues when Less returns `true`. -/
lemma inner_true (fuel j : ℕ) (c : ColumnStatistics F) (h : j + 1 < c.length)
    (hl : ColumnStatistics.Less fuel c ⟨j + 1, h⟩ ⟨j, Nat.lt_of_succ_lt h⟩ = some true) :
    insertionSort.inner fuel (j + 1) c
      = insertionSort.inner fuel j (c.Swap ⟨j + 1, h⟩ ⟨j, Nat.lt_of_succ_lt h⟩) := by
  rw [insertionSort.inner, dif_pos h, hl]

/-- Statistics.String does not return when the sort of its column statistics
does not return. -/
lemma string_none (fmtG : F → String) (colsString : ColSet → String) (fuel : ℕ)
    (st : Statistics F) (h : sortSort fuel st.ColStats = none) :
    st.String fmtG colsString fuel = none := by
  unfold Statistics.String
  simp only [ColStatsMap.Count, List.ofFn_get, h]

/-- Statistics.String renders the sorted column statistics when the sort
returns. -/
lemma string_some (fmtG : F → String) (colsString : ColSet → String) (fuel : ℕ)
    (st : Statistics F) (sorted : ColumnStatistics F)
    (h : sortSort fuel st.ColStats = some sorted) :
    st.String fmtG colsString fuel
      = some (sorted.foldl
          (fun b col => b ++ ", distinct" ++ colsString col.Cols ++ "=" ++ fmtG col.distinctCount)
          ("[rows=" ++ fmtG st.rowCount) ++ "]") := by
  unfold Statistics.String
  simp only [ColStatsMap.Count, List.ofFn_get, h, Statistics.RowCount,
    ColumnStatistic.DistinctCount]

/-- Statistics.String returns no text for any two column statistics whose
column sets have the same cardinality and the same smallest identifier,
whatever the row count, the distinct counts and the formatting functions. -/
lemma string_none_of_shared_pair (fmtG : F → String) (colsString : ColSet → String)
    (fuel : ℕ) (r q : F) (a b : ColumnStatistic F)
    (hlen : b.Cols.card = a.Cols.card) (hb : b.Cols.Nonempty) (ha : a.Cols.Nonempty)
    (hmin : b.Cols.min' hb = a.Cols.min' ha) :
    Statistics.String fmtG colsString fuel
      { rowCount := r, ColStats := [a, b], selectivity := q } = none := by
  apply string_none
  show insertionSort.inner fuel 1 [a, b] = none
  exact inner_none fuel 0 [a, b] (by simp)
    (less_never_returns [a, b] ⟨1, by simp⟩ ⟨0, by simp⟩ hlen hb ha hmin fuel)

/-- The sort does not return on the statistics {1,2}, {1,3} in either order. -/
lemma sort_sharedFirst_none (fuel : ℕ) :
    sortSort fuel sharedFirstStats.ColStats = none ∧
    sortSort fuel sharedFirstSwapped.ColStats = none := by
  constructor
  · show insertionSort.inner fuel 1 sharedFirstStats.ColStats = none
    exact inner_none fuel 0 _ (by decide)
      (less_never_returns _ _ _ (by decide) ⟨1, by decide⟩ ⟨1, by decide⟩ (by decide) fuel)
  · show insertionSort.inner fuel 1 sharedFirstSwapped.ColStats = none
    exact inner_none fuel 0 _ (by decide)
      (less_never_returns _ _ _ (by decide) ⟨1, by decide⟩ ⟨1, by decide⟩ (by decide) fuel)

/-- The sort of the rendering scenario returns the statistics in the order
{1}, {2}. -/
lemma sort_renderScenario (fuel : ℕ) :
    sortSort (fuel + 1) renderScenario.ColStats
      = some [{ Cols := {1}, distinctCount := 3 }, { Cols := {2}, distinctCount := 5 }] := by
  show insertionSort.inner (fuel + 1) 1 renderScenario.ColStats = _
  have hl : ColumnStatistics.Less (fuel + 1) renderScenario.ColStats ⟨1, by decide⟩
      ⟨0, by decide⟩ = some true := by
    rw [less_of_min_ne _ _ _ (by decide) ⟨1, by decide⟩ ⟨2, by decide⟩ (by decide)]
    decide
  rw [inner_true (fuel + 1) 0 _ (by decide) hl]
  rfl

/-- C11: Statistics.String returns no text for the statistics on the two
different column sets {1,2} and {1,3}, in whichever order they are held,
whatever the formatting functions and the number of loop iterations allowed to
Less. -/
theorem statistics_String_no_text_on_shared_first :
    (∀ (fmtG : ℚ → String) (colsString : ColSet → String) (fuel : ℕ),
      sharedFirstStats.String fmtG colsString fuel = none) ∧
    (∀ (fmtG : ℚ → String) (colsString : ColSet → String) (fuel : ℕ),
      sharedFirstSwapped.String fmtG colsString fuel = none) :=
  ⟨fun fmtG colsString fuel => string_none fmtG colsString fuel _ (sort_sharedFirst_none fuel).1,
   fun fmtG colsString fuel => string_none fmtG colsString fuel _ (sort_sharedFirst_none fuel).2⟩

/-- C12: Statistics.String returns no text for the statistics on {3}, {1,2} and
{1,3}; for the scenario of the specification (row count 42, statistics {2}:5
and {1}:3) it returns the row count followed by the entry of {1} and then the
entry of {2}, which is the text `[rows=42, distinct(1)=3, distinct(2)=5]` for
formatting functions that print 42, 3, 5, {1}, {2} as `42`, `3`, `5`, `(1)`,
`(2)`. -/
theorem statistics_String_render_cases :
    (∀ (fmtG : ℚ → String) (colsString : ColSet → String) (fuel : ℕ),
      tripleStats.String fmtG colsString fuel = none) ∧
    (∀ (fmtG : ℚ → String) (colsString : ColSet → String) (fuel : ℕ),
      renderScenario.String fmtG colsString (fuel + 1)
        = some ("[rows=" ++ fmtG 42 ++ ", distinct" ++ colsString {1} ++ "=" ++ fmtG 3
            ++ ", distinct" ++ colsString {2} ++ "=" ++ fmtG 5 ++ "]")) ∧
    (∀ (fmtG : ℚ → String) (colsString : ColSet → String) (fuel : ℕ),
      fmtG 42 = "42" → fmtG 3 = "3" → fmtG 5 = "5" →
      colsString {1} = "(1)" → colsString {2} = "(2)" →
      renderScenario.String fmtG colsString (fuel + 1)
        = some "[rows=42, distinct(1)=3, distinct(2)=5]") := by
  refine ⟨fun fmtG colsString fuel => string_none fmtG colsString fuel _ ?_,
    fun fmtG colsString fuel => ?_, fun fmtG colsString fuel h42 h3 h5 hc1 hc2 => ?_⟩
  · have h10 : ColumnStatistics.Less fuel tripleStats.ColStats ⟨1, by decide⟩ ⟨0, by decide⟩
        = some false := by
      rw [less_of_len_ne _ _ _ (by decide)]
      decide
    have h21 : ColumnStatistics.Less fuel tripleStats.ColStats ⟨2, by decide⟩ ⟨1, by decide⟩
        = none :=
      less_never_returns _ _ _ (by decide) ⟨1, by decide⟩ ⟨1, by decide⟩ (by decide) fuel
    show Option.bind (Option.bind (some tripleStats.ColStats) (insertionSort.inner fuel 1))
      (insertionSort.inner fuel 2) = none
    rw [Option.some_bind, inner_false fuel 0 _ (by decide) h10, Option.some_bind,
      inner_none fuel 1 _ (by decide) h21]
  · rw [string_some fmtG colsString (fuel + 1) _ _ (sort_renderScenario fuel)]
    rfl
  · rw [string_some fmtG colsString (fuel + 1) _ _ (sort_renderScenario fuel)]
    simp only [List.foldl, renderScenario, h42, h3, h5, hc1, hc2]
    rfl

end Rendering

/-! ## Float64 arithmetic -/

section Float64

/-- Rounding to the nearest integer, evaluated from the integer part `f`. -/
lemma roundHalfEven_eval (x : ℚ) (f : ℤ) (h1 : (f : ℚ) ≤ x) (h2 : x < f + 1) :
    roundHalfEven x
      = if x - f < 1 / 2 then f else if 1 / 2 < x - f then f + 1
        else if f % 2 = 0 then f else f + 1 := by
  have hf : Int.floor x = f := Int.floor_eq_iff.mpr ⟨h1, h2⟩
  unfold roundHalfEven
  rw [hf]

/-- The binary exponent of a positive rational between `2 ^ e` and `2 ^ (e + 1)`. -/
lemma log_two_eq (q : ℚ) (e : ℤ) (hq : 0 < q) (h1 : (2 : ℚ) ^ e ≤ q)
    (h2 : q < (2 : ℚ) ^ (e + 1)) : Int.log 2 |q| = e := by
  rw [abs_of_pos hq]
  have hb : 1 < (2 : ℕ) := by norm_num
  have ha : e ≤ Int.log 2 q := (Int.zpow_le_iff_le_log hb hq).mp (by exact_mod_cast h1)
  have hc : Int.log 2 q < e + 1 := (Int.lt_zpow_iff_log_lt hb hq).mp (by exact_mod_cast h2)
  omega

/-- Evaluation of the float64 rounding of a positive rational from its binary
exponent `e` and the integer part `f` of its significand scaled to 53 bits. -/
lemma round64_eval (q r : ℚ) (e f : ℤ) (hq : 0 < q) (h1 : (2 : ℚ) ^ e ≤ q)
    (h2 : q < (2 : ℚ) ^ (e + 1)) (hf1 : (f : ℚ) ≤ q / 2 ^ (e - 52))
    (hf2 : q / 2 ^ (e - 52) < f + 1)
    (hr : (((if q / 2 ^ (e - 52) - f < 1 / 2 then f
              else if 1 / 2 < q / 2 ^ (e - 52) - f then f + 1
              else if f % 2 = 0 then f else f + 1 : ℤ) : ℚ)) * 2 ^ (e - 52) = r) :
    round64 q = r := by
  unfold round64
  rw [if_neg (ne_of_gt hq), log_two_eq q e hq h1 h2, roundHalfEven_eval _ f hf1 hf2]
  exact hr

/-- The general branch of Statistics.ApplySelectivity64 in closed form. -/
lemma applySelectivity64_ne_zero_eq (st : Statistics ℚ) (s : ℚ) (hs : s ≠ 0) :
    st.ApplySelectivity64 s
      = { rowCount := mul64 st.rowCount s,
          ColStats := st.ColStats.map
            (fun c => { c with distinctCount := min c.distinctCount (mul64 st.rowCount s) }),
          selectivity := mul64 st.selectivity s } := by
  have h := forLoop_updateAt_all
    (fun r c => if c.distinctCount > r then ({ c with distinctCount := r } : ColumnStatistic ℚ)
      else c)
    ({ rowCount := mul64 st.rowCount s, ColStats := st.ColStats,
       selectivity := mul64 st.selectivity s } : Statistics ℚ)
  simp only [Statistics.ApplySelectivity64, if_neg hs, Statistics.UpdateRowCount,
    Statistics.UpdateSelectivity, Statistics.RowCount, Statistics.Selectivity,
    ColStatsMap.Count, ColumnStatistic.UpdateDistinctCount, ColumnStatistic.DistinctCount]
  refine h.trans ?_
  congr 1
  apply List.map_congr_left
  intro c _
  by_cases hc : c.distinctCount > mul64 st.rowCount s
  · simp only [if_pos hc, min_eq_right (le_of_lt hc)]
  · simp only [if_neg hc, min_eq_left (not_lt.mp hc)]

/-- The attenuation branch of ColumnStatistic.ApplySelectivity64. -/
lemma applySelectivity64_formula (pow : ℚ → ℚ → ℚ) (cols : ColSet) (s n d : ℚ)
    (h1 : s ≠ 1) (h0 : s ≠ 0) (hd : d ≠ 0) :
    (ColumnStatistic.ApplySelectivity64 pow { Cols := cols, distinctCount := d } s n).distinctCount
      = sub64 d (mul64 d (pow (sub64 1 s) (div64 n d))) := by
  have h : ¬ (s = 1 ∨ d = 0) := by
    rintro (h | h)
    · exact h1 h
    · exact hd h
  simp only [ColumnStatistic.ApplySelectivity64, ColumnStatistic.DistinctCount, if_neg h,
    if_neg h0, ColumnStatistic.UpdateDistinctCount]

/-- The literals 0.1, 0.7 and 0.215 as float64 values. -/
lemma literals64 :
    round64 (1 / 10) = tenth64 ∧ round64 (7 / 10) = sevenTenths64 ∧
    round64 (215 / 1000) = lit215 := by
  refine ⟨?_, ?_, ?_⟩
  · apply round64_eval _ _ (-4) 7205759403792793 <;> norm_num [tenth64]
  · apply round64_eval _ _ (-1) 6305039478318694 <;> norm_num [sevenTenths64]
  · apply round64_eval _ _ (-3) 7746191359077253 <;> norm_num [lit215]

/-- C17 fails as stated on the float64 code. With distinct count and input row
count 3 and selectivity 0.1 the produced distinct count is 0.2999999999999998,
below the product `d * s` (exact, and 0.30000000000000004 as a float64); with
distinct count and input row count 808 and selectivity 0.215 it is
173.72000000000003, above the product `s * n` (exact, and 173.72 as a
float64). Both hold for every power function with `pow x 1 = x`, a documented
special case of math.Pow. -/
theorem ColumnStatistic.float64_breaks_proportional_bounds :
    ((0 ≤ tenth64 ∧ tenth64 ≤ 1) ∧ (0 ≤ lit215 ∧ lit215 ≤ 1)) ∧
    (∀ pow : ℚ → ℚ → ℚ, (∀ x, pow x 1 = x) →
      (ColumnStatistic.ApplySelectivity64 pow { Cols := {1}, distinctCount := 3 }
          tenth64 3).distinctCount = 337769972052787 / 1125899906842624) ∧
    (337769972052787 / 1125899906842624 : ℚ) < 3 * tenth64 ∧
    (337769972052787 / 1125899906842624 : ℚ) < mul64 3 tenth64 ∧
    (∀ pow : ℚ → ℚ → ℚ, (∀ x, pow x 1 = x) →
      (ColumnStatistic.ApplySelectivity64 pow { Cols := {1}, distinctCount := 808 }
          lit215 808).distinctCount = 764028639908987 / 4398046511104) ∧
    lit215 * 808 < (764028639908987 / 4398046511104 : ℚ) ∧
    mul64 lit215 808 < (764028639908987 / 4398046511104 : ℚ) := by
  have a1 : round64 (1 - tenth64) = 8106479329266893 / 9007199254740992 := by
    apply round64_eval _ _ (-1) 8106479329266892 <;> norm_num [tenth64]
  have a2 : round64 ((3 : ℚ) / 3) = 1 := by
    apply round64_eval _ _ 0 4503599627370496 <;> norm_num
  have a3 : round64 (3 * (8106479329266893 / 9007199254740992))
      = 3039929748475085 / 1125899906842624 := by
    apply round64_eval _ _ 1 6079859496950169 <;> norm_num
  have a4 : round64 (3 - 3039929748475085 / 1125899906842624)
      = 337769972052787 / 1125899906842624 := by
    apply round64_eval _ _ (-2) 5404319552844592 <;> norm_num
  have a5 : mul64 3 tenth64 = 1351079888211149 / 4503599627370496 := by
    apply round64_eval _ _ (-2) 5404319552844595 <;> norm_num [tenth64]
  have b1 : round64 (1 - lit215) = 7070651414971679 / 9007199254740992 := by
    apply round64_eval _ _ (-1) 7070651414971678 <;> norm_num [lit215]
  have b2 : round64 ((808 : ℚ) / 808) = 1 := by
    apply round64_eval _ _ 0 4503599627370496 <;> norm_num
  have b3 : round64 (808 * (7070651414971679 / 9007199254740992))
      = 2789592941063045 / 4398046511104 := by
    apply round64_eval _ _ 9 5579185882126090 <;> norm_num
  have b4 : round64 (808 - 2789592941063045 / 4398046511104)
      = 764028639908987 / 4398046511104 := by
    apply round64_eval _ _ 7 6112229119271896 <;> norm_num
  have b5 : mul64 lit215 808 = 6112229119271895 / 35184372088832 := by
    apply round64_eval _ _ 7 6112229119271894 <;> norm_num [lit215]
  refine ⟨by norm_num [tenth64, lit215], ?_, by norm_num [tenth64], ?_, ?_,
    by norm_num [lit215], ?_⟩
  · intro pow hpow
    rw [applySelectivity64_formula pow {1} tenth64 3 3 (by norm_num [tenth64])
      (by norm_num [tenth64]) (by norm_num)]
    simp only [sub64, mul64, div64, a1, a2, hpow, a3, a4]
  · rw [a5]
    norm_num
  · intro pow hpow
    rw [applySelectivity64_formula pow {1} lit215 808 808 (by norm_num [lit215])
      (by norm_num [lit215]) (by norm_num)]
    simp only [sub64, mul64, div64, b1, b2, hpow, b3, b4]
  · rw [b5]
    norm_num

/-- C19 fails as stated on the float64 code. From row count 3 and distinct
count 1, the calls with 0.1 and then 0.7 leave the distinct count
0.21000000000000002, while the single call with the float64 product of 0.1 and
0.7 leaves 0.20999999999999996. -/
theorem Statistics.float64_compose_distinct_differs :
    (0 ≤ smallStats.rowCount ∧ (0 ≤ tenth64 ∧ tenth64 ≤ 1) ∧
      (0 ≤ sevenTenths64 ∧ sevenTenths64 ≤ 1)) ∧
    ((smallStats.ApplySelectivity64 tenth64).ApplySelectivity64 sevenTenths64).ColStats.map
        (fun c => c.distinctCount) = [3783023686991217 / 18014398509481984] ∧
    (smallStats.ApplySelectivity64 (mul64 tenth64 sevenTenths64)).ColStats.map
        (fun c => c.distinctCount) = [236438980436951 / 1125899906842624] ∧
    ((smallStats.ApplySelectivity64 tenth64).ApplySelectivity64 sevenTenths64).ColStats.map
        (fun c => c.distinctCount)
      ≠ (smallStats.ApplySelectivity64 (mul64 tenth64 sevenTenths64)).ColStats.map
        (fun c => c.distinctCount) := by
  have c1 : mul64 3 tenth64 = 1351079888211149 / 4503599627370496 := by
    apply round64_eval _ _ (-2) 5404319552844595 <;> norm_num [tenth64]
  have c2 : mul64 (1351079888211149 / 4503599627370496) sevenTenths64
      = 3783023686991217 / 18014398509481984 := by
    apply round64_eval _ _ (-3) 7566047373982433 <;> norm_num [sevenTenths64]
  have c3 : mul64 tenth64 sevenTenths64 = 5044031582654955 / 72057594037927936 := by
    apply round64_eval _ _ (-4) 5044031582654955 <;> norm_num [tenth64, sevenTenths64]
  have c4 : mul64 3 (5044031582654955 / 72057594037927936)
      = 236438980436951 / 1125899906842624 := by
    apply round64_eval _ _ (-3) 7566047373982432 <;> norm_num
  have hseq : ((smallStats.ApplySelectivity64 tenth64).ApplySelectivity64
      sevenTenths64).ColStats.map (fun c => c.distinctCount)
      = [3783023686991217 / 18014398509481984] := by
    rw [applySelectivity64_ne_zero_eq _ sevenTenths64 (by norm_num [sevenTenths64]),
      applySelectivity64_ne_zero_eq _ tenth64 (by norm_num [tenth64])]
    simp only [smallStats, c1, c2, List.map_cons, List.map_nil]
    norm_num
  have hone : (smallStats.ApplySelectivity64 (mul64 tenth64 sevenTenths64)).ColStats.map
      (fun c => c.distinctCount) = [236438980436951 / 1125899906842624] := by
    rw [c3, applySelectivity64_ne_zero_eq _ _ (by norm_num)]
    simp only [smallStats, c4, List.map_cons, List.map_nil]
    norm_num
  refine ⟨by norm_num [smallStats, tenth64, sevenTenths64], hseq, hone, ?_⟩
  rw [hseq, hone]
  norm_num

end Float64

end props
